import Mathlib

/- Verification of the libsaxbospiral refinement engine: a shallow embedding
   of the C sources (saxbospiral.h, initialise.c, solve.c), with the
   coordinate cache and the serialiser modelled from the specification where
   their source files are absent from the tree. -/

/-- A 2D integer lattice point (tuple_t / co_ord_t in saxbospiral.h:
64-bit signed coordinates, modelled as unbounded integers). -/
structure Pt where
  x : Int
  y : Int
deriving DecidableEq, Repr

/-- The origin vertex, where every spiral starts. -/
def origin : Pt := ⟨0, 0⟩

/-- Componentwise addition of points / vectors. -/
def ptAdd (p q : Pt) : Pt := ⟨p.x + q.x, p.y + q.y⟩

/-- Scale a vector by a natural number. -/
def ptScale (n : Nat) (v : Pt) : Pt := ⟨(n : Int) * v.x, (n : Int) * v.y⟩

/-- Cartesian direction constants from saxbospiral.h. -/
def UP : Nat := 0

/-- Cartesian direction constant RIGHT = 1. -/
def RIGHT : Nat := 1

/-- Cartesian direction constant DOWN = 2. -/
def DOWN : Nat := 2

/-- Cartesian direction constant LEFT = 3. -/
def LEFT : Nat := 3

/-- Modelled from the spec (section 4.A): the direction-to-unit-vector map
VECTOR_DIRECTIONS, whose defining source file is absent from src/:
UP = (0, +1), RIGHT = (+1, 0), DOWN = (0, -1), LEFT = (-1, 0). -/
def vectorDirection (d : Nat) : Pt :=
  if d = 0 then ⟨0, 1⟩
  else if d = 1 then ⟨1, 0⟩
  else if d = 2 then ⟨0, -1⟩
  else ⟨-1, 0⟩

/-- One line segment of a spiral (line_t in saxbospiral.h): a direction
(2-bit bitfield) and a length (30-bit bitfield). -/
structure Line where
  direction : Nat
  length : Nat
deriving DecidableEq, Repr

/-- Read a line from the segment array, with a zero line as the
out-of-bounds default (the C code never reads out of bounds under its
preconditions). -/
def lineGetD (lines : List Line) (i : Nat) : Line := lines.getD i ⟨0, 0⟩

/-- Modelled from the spec: sxbp_sum_lines (absent from src/, declared in
solve.h) sums the lengths of the lines with indices in [a, b); it is used to
turn a line index into the cache index of that line's start vertex. -/
def sxbp_sum_lines (lines : List Line) (a b : Nat) : Nat :=
  (((lines.drop a).take (b - a)).map (fun l => l.length)).sum

/-- The unit steps taken when walking the polyline: each line contributes
its length many copies of its direction vector. -/
def walkSteps (lines : List Line) : List Pt :=
  lines.flatMap (fun l => List.replicate l.length (vectorDirection l.direction))

/-- Modelled from the spec (section 4.C): sxbp_cache_spiral_points (plot.c,
absent from src/) materialises the coordinate cache through line (limit - 1):
starting from the origin it walks forward, appending each intermediate
unit-step vertex, so the cache holds vertex 0 = origin followed by every
unit-step point of lines [0, limit). -/
def sxbp_cache_spiral_points (lines : List Line) (limit : Nat) : List Pt :=
  (walkSteps (lines.take limit)).scanl ptAdd origin

/-- The endpoint of a line drawn from a given start vertex. -/
def lineEnd (start : Pt) (l : Line) : Pt :=
  ptAdd start (ptScale l.length (vectorDirection l.direction))

/-- The start vertex of segment k: the endpoint of the walk over
segments [0, k). -/
def segStart (lines : List Line) (k : Nat) : Pt :=
  (lines.take k).foldl lineEnd origin

/-- The lattice points traversed by segment k, endpoints included. -/
def segPoints (lines : List Line) (k : Nat) : List Pt :=
  (List.range ((lineGetD lines k).length + 1)).map
    (fun t => ptAdd (segStart lines k) (ptScale t (vectorDirection (lineGetD lines k).direction)))

/-- Decrement of the uint32 ttl counter in spiral_collides (solve.c),
including the wrap-around the C unsigned type would perform at zero. -/
def ttlDec (ttl : Nat) : Nat := if ttl = 0 then 4294967295 else ttl - 1

/-- The inner loop of spiral_collides (solve.c): do the coordinates of cache
entry i equal those of any cache entry j in [startLast, lastCoord)? -/
def pointMatch (items : List Pt) (startLast lastCoord i : Nat) : Bool :=
  (List.range' startLast (lastCoord - startLast)).any
    (fun j => decide (items.getD i origin = items.getD j origin))

/-- The outer loop of spiral_collides (solve.c): scan cache points i
upwards (rem counts the remaining iterations, i < start_of_last_line),
tracking with lineCount / ttl which line each point belongs to; on a
coordinate match report the current lineCount as the collider; stop early
once lineCount reaches size - 2 - 1. -/
def collideLoop (items : List Pt) (lines : List Line) (size startLast lastCoord : Nat) :
    Nat → Nat → Nat → Nat → Option Nat
  | 0, _, _, _ => none
  | rem + 1, i, lineCount, ttl =>
    if pointMatch items startLast lastCoord i then some lineCount
    else
      let t1 := ttlDec ttl
      let lc1 := if t1 = 0 then lineCount + 1 else lineCount
      let t2 := if t1 = 0 then (lineGetD lines lc1).length else t1
      if lc1 = size - 2 - 1 then none
      else collideLoop items lines size startLast lastCoord rem (i + 1) lc1 t2

/-- spiral_collides (solve.c): with the coordinate cache materialised
through line index, decide whether line index shares a lattice point with
an earlier cache point; returns the recorded collider index, or none.
Fewer than 4 lines can never collide. The source stores
start_of_last_line in a uint32_t while the cache size is a size_t, so the
scan bound is the cache-relative start of the last line truncated modulo
2^32; the uint32 outer counter i stays strictly below that bound and so
never wraps itself. -/
def spiral_collides (lines : List Line) (index : Nat) : Option Nat :=
  if lines.length < 4 then none
  else
    let items := sxbp_cache_spiral_points lines (index + 1)
    let lastCoord := items.length
    let lastLine := lineGetD lines index
    let startLast := (lastCoord - lastLine.length - 1) % 4294967296
    collideLoop items lines lines.length startLast lastCoord
      startLast 0 0 ((lineGetD lines 0).length + 1)

/-- The spiral bookkeeping state carried by the solver (spiral_t in
saxbospiral.h, minus the memoised cache, which the embedding recomputes at
each use, and the opaque timing odometer). -/
structure Spiral where
  lines : List Line
  collides : Bool
  collider : Nat
  solvedCount : Nat
deriving DecidableEq, Repr

/-- Conversion of an int64 arithmetic result to the uint32 return type
sxbp_length_t of suggest_resize (reduction modulo 2 to the 32). -/
def intToLength (v : Int) : Nat := (v % 4294967296).toNat

/-- suggest_resize (solve.c): given a spiral marked as colliding at line
index together with the recorded collider, propose a new length for line
index - 1, transcribing the threshold rule, the non-parallel guard and the
eight parallel axis cases of the source. -/
def suggest_resize (sp : Spiral) (index : Nat) (perfectionThreshold : Nat) : Nat :=
  if sp.collides then
    if perfectionThreshold > 0 ∧ (lineGetD sp.lines index).length > perfectionThreshold then
      (lineGetD sp.lines (index - 1)).length + 1
    else
      let p := lineGetD sp.lines (index - 1)
      let r := lineGetD sp.lines sp.collider
      if p.direction % 2 ≠ r.direction % 2 then
        (lineGetD sp.lines (index - 1)).length + 1
      else
        let items := sxbp_cache_spiral_points sp.lines (index + 1)
        let pIdx := sxbp_sum_lines sp.lines 0 (index - 1)
        let rIdx := sxbp_sum_lines sp.lines 0 sp.collider
        let pa := items.getD pIdx origin
        let ra := items.getD rIdx origin
        let rb := items.getD (rIdx + r.length) origin
        if p.direction = UP ∧ r.direction = UP then
          intToLength ((ra.y - pa.y) + (r.length : Int) + 1)
        else if p.direction = UP ∧ r.direction = DOWN then
          intToLength ((rb.y - pa.y) + (r.length : Int) + 1)
        else if p.direction = RIGHT ∧ r.direction = RIGHT then
          intToLength ((ra.x - pa.x) + (r.length : Int) + 1)
        else if p.direction = RIGHT ∧ r.direction = LEFT then
          intToLength ((rb.x - pa.x) + (r.length : Int) + 1)
        else if p.direction = DOWN ∧ r.direction = UP then
          intToLength ((pa.y - rb.y) + (r.length : Int) + 1)
        else if p.direction = DOWN ∧ r.direction = DOWN then
          intToLength ((pa.y - ra.y) + (r.length : Int) + 1)
        else if p.direction = LEFT ∧ r.direction = RIGHT then
          intToLength ((pa.x - rb.x) + (r.length : Int) + 1)
        else if p.direction = LEFT ∧ r.direction = LEFT then
          intToLength ((pa.x - ra.x) + (r.length : Int) + 1)
        else
          (lineGetD sp.lines (index - 1)).length + 1
  else
    (lineGetD sp.lines (index - 1)).length

/-- Write a new length into line i, keeping its direction; the 30-bit
length bitfield of line_t truncates the stored value modulo 2 to the 30. -/
def setLineLength (lines : List Line) (i len : Nat) : List Line :=
  lines.set i ⟨(lineGetD lines i).direction, len % 1073741824⟩

/-- The backtracking loop of sxbp_resize_spiral (solve.c), with an explicit
fuel parameter standing for the unproven termination of the source loop:
set the current line to the current length, re-materialise the cache,
re-evaluate the collision predicate, and either descend with a suggested
length, climb back up with length 1, or succeed at the target index. -/
def resizeLoop (perfectionThreshold index : Nat) :
    Nat → Spiral → Nat → Nat → Option Spiral
  | 0, _, _, _ => none
  | fuel + 1, sp, curIdx, curLen =>
    let lines1 := setLineLength sp.lines curIdx curLen
    match spiral_collides lines1 curIdx with
    | some c =>
      let sp1 : Spiral := ⟨lines1, true, c, sp.solvedCount⟩
      let suggested := suggest_resize sp1 curIdx perfectionThreshold
      resizeLoop perfectionThreshold index fuel sp1 (curIdx - 1) suggested
    | none =>
      let sp1 : Spiral := ⟨lines1, false, sp.collider, sp.solvedCount⟩
      if curIdx ≠ index then
        resizeLoop perfectionThreshold index fuel sp1 (curIdx + 1) 1
      else
        some ⟨lines1, false, sp.collider, index + 1⟩

/-- sxbp_resize_spiral (solve.c): run the backtracker starting at the
target index with the target length. -/
def sxbp_resize_spiral (sp : Spiral) (index len perfectionThreshold fuel : Nat) :
    Option Spiral :=
  resizeLoop perfectionThreshold index fuel sp index len

/-- The outer loop of sxbp_plot_spiral (solve.c): solve each line index
from solvedCount up to maxIndex - 1 by a resize to length 1 (steps counts
the remaining indices; the progress callback returns void in the source
and cannot influence control flow, so it is not modelled). -/
def plotLoop (perfectionThreshold fuel maxIndex : Nat) :
    Nat → Nat → Spiral → Option Spiral
  | 0, _, sp => some sp
  | steps + 1, i, sp =>
    match sxbp_resize_spiral sp i 1 perfectionThreshold fuel with
    | none => none
    | some sp1 => plotLoop perfectionThreshold fuel maxIndex steps (i + 1) sp1

/-- sxbp_plot_spiral (solve.c): cap the target at the spiral size and run
the outer loop from solvedCount. -/
def sxbp_plot_spiral (sp : Spiral) (perfectionThreshold maxLine fuel : Nat) :
    Option Spiral :=
  let maxIndex := min maxLine sp.lines.length
  plotLoop perfectionThreshold fuel maxIndex (maxIndex - sp.solvedCount) sp.solvedCount sp

/-- sxbp_change_direction (initialise.c): (current + turn) mod 4, with the
C usual-arithmetic-conversions semantics collapsing to mathematical mod 4
because 4 divides 2 to the 32. -/
def sxbp_change_direction (current : Nat) (turn : Int) : Nat :=
  (((current : Int) + turn) % 4).toNat

/-- The rotation constant CLOCKWISE = 1 (saxbospiral.h). -/
def CLOCKWISE : Int := 1

/-- The rotation constant ANTI_CLOCKWISE = -1 (saxbospiral.h). -/
def ANTI_CLOCKWISE : Int := -1

/-- The bits of the input byte buffer, MSB-first within each byte, exactly
as traversed by the nested loops of sxbp_init_spiral (initialise.c). -/
def bufferBits (buffer : List Nat) : List Bool :=
  buffer.flatMap (fun byte => (List.range 8).map (fun b => byte / 2 ^ (7 - b) % 2 = 1))

/-- The per-bit body of sxbp_init_spiral (initialise.c): each bit turns the
current direction (0 clockwise, 1 anti-clockwise) and emits a line with the
new direction and length 0. -/
def turnLines : Nat → List Bool → List Line
  | _, [] => []
  | current, bit :: rest =>
    let next := sxbp_change_direction current (if bit then ANTI_CLOCKWISE else CLOCKWISE)
    ⟨next, 0⟩ :: turnLines next rest

/-- sxbp_init_spiral (initialise.c): line 0 is (UP, 0) and each input bit
contributes one further line of length 0 whose direction is obtained by
turning the previous direction. -/
def sxbp_init_spiral (buffer : List Nat) : List Line :=
  ⟨UP, 0⟩ :: turnLines UP (bufferBits buffer)

/-- Modelled from the spec (section 4.I): the implementation version major
number written in and checked against the serialised header (the source
file defining VERSION is absent from src/; the concrete value is
irrelevant to the format). -/
def VERSION_MAJOR : Nat := 0

/-- Modelled from the spec (section 4.I): the version minor number. -/
def VERSION_MINOR : Nat := 0

/-- Modelled from the spec (section 4.I): the version patch number. -/
def VERSION_PATCH : Nat := 0

/-- Big-endian 4-byte encoding of an unsigned 32-bit value. -/
def be32 (n : Nat) : List Nat :=
  [n / 16777216 % 256, n / 65536 % 256, n / 256 % 256, n % 256]

/-- Big-endian decoding of 4 bytes. -/
def de32 (b0 b1 b2 b3 : Nat) : Nat := ((b0 * 256 + b1) * 256 + b2) * 256 + b3

/-- Modelled from the spec (section 4.I): dump_spiral (serialise.c, absent
from src/) writes the magic SXBP, three version bytes, the big-endian
segment count, then one 4-byte record per segment with the direction in
the high 2 bits and the length in the low 30 bits. -/
def dump_spiral (lines : List Line) : List Nat :=
  [83, 88, 66, 80] ++ [VERSION_MAJOR, VERSION_MINOR, VERSION_PATCH] ++
    be32 lines.length ++
    lines.flatMap (fun l => be32 (l.direction * 1073741824 + l.length))

/-- The distinguished deserialisation failures of load_spiral
(deserialise_diagnostic_t in serialise.h). -/
inductive LoadError where
  | badHeaderSize : LoadError
  | badMagic : LoadError
  | badVersion : LoadError
  | badDataSize : LoadError
deriving DecidableEq, Repr

/-- Decode count many 4-byte segment records. -/
def parseRecords : Nat → List Nat → List Line
  | 0, _ => []
  | n + 1, b0 :: b1 :: b2 :: b3 :: rest =>
    ⟨de32 b0 b1 b2 b3 / 1073741824, de32 b0 b1 b2 b3 % 1073741824⟩ :: parseRecords n rest
  | _ + 1, _ => []

/-- Modelled from the spec (section 4.I): load_spiral (serialise.c, absent
from src/) verifies the header size, the magic, the version major and the
data size, then decodes the segment records. -/
def load_spiral (buf : List Nat) : Except LoadError (List Line) :=
  if buf.length < 11 then .error .badHeaderSize
  else if buf.take 4 ≠ [83, 88, 66, 80] then .error .badMagic
  else if buf.getD 4 0 ≠ VERSION_MAJOR then .error .badVersion
  else
    let n := de32 (buf.getD 7 0) (buf.getD 8 0) (buf.getD 9 0) (buf.getD 10 0)
    if buf.length < 11 + 4 * n then .error .badDataSize
    else .ok (parseRecords n (buf.drop 11))

/-- Does cache point i of the cache materialised through line index match
some point of line index (the j-range of the spiral_collides scan)? -/
def hitsLast (lines : List Line) (index i : Nat) : Bool :=
  pointMatch (sxbp_cache_spiral_points lines (index + 1))
    (sxbp_sum_lines lines 0 index) (sxbp_sum_lines lines 0 (index + 1) + 1) i

/-- The number of cache points the spiral_collides scan examines: the scan
stops at the start of line index and also, via the early break, once the
point attribution reaches line size - 3. -/
def scanBound (lines : List Line) (index : Nat) : Nat :=
  min (sxbp_sum_lines lines 0 index) (sxbp_sum_lines lines 0 (lines.length - 3) + 1)

/-- The first scanned cache point matching line index, if any. -/
def matchedIdx (lines : List Line) (index : Nat) : Option Nat :=
  (List.range (scanBound lines index)).find? (fun i => hitsLast lines index i)

/-- The line a cache point index belongs to under the attribution of the
spiral_collides scan: cache point i is charged to the number of lines
(other than line 0) whose start index lies strictly below i, so each line
owns its unit-step points and its end vertex, while a shared vertex is
charged to the earlier line. -/
def attribLine (lines : List Line) (i : Nat) : Nat :=
  ((List.range lines.length).filter
    (fun c => decide (0 < c) && decide (sxbp_sum_lines lines 0 c < i))).length

/-- Reference description of spiral_collides: the first matching scanned
cache point, attributed to its line. -/
def scanSpec (lines : List Line) (index : Nat) : Option Nat :=
  if lines.length < 4 then none
  else (matchedIdx lines index).map (attribLine lines)

/-- Do segments a and b share a lattice point? -/
def segIntersects (lines : List Line) (a b : Nat) : Bool :=
  (segPoints lines a).any (fun q => (segPoints lines b).any (fun w => decide (w = q)))

/-- The unoptimised collision predicate the spec describes: test segment
index against every earlier non-adjacent segment and report the lowest
intersecting one. -/
def naive_collides (lines : List Line) (index : Nat) : Option Nat :=
  (List.range index).find? (fun j => decide (j + 1 ≠ index) && segIntersects lines j index)

/-- Bit k of a byte buffer read MSB-first (the spec's description of the
bit-encoding input order). -/
def msbBit (buffer : List Nat) (k : Nat) : Bool :=
  buffer.getD (k / 8) 0 / 2 ^ (7 - k % 8) % 2 = 1

/-- A concrete colliding perpendicular figure: the long first line is hit
by line 5 after the spiral walks back across it, so the recorded collider
starts below the previous line's start vertex. -/
def linesColl : List Line := [⟨0, 5⟩, ⟨1, 1⟩, ⟨2, 3⟩, ⟨1, 1⟩, ⟨0, 1⟩, ⟨3, 3⟩]

/-- The spiral state after spiral_collides has recorded the collision of
line 5 of linesColl with line 0. -/
def spColl : Spiral := ⟨linesColl, true, 0, 0⟩

/-- A concrete perpendicular figure whose fourth segment has length zero:
segment 2 and segment 4 then share a lattice point that the optimised scan
never examines. -/
def linesZero : List Line := [⟨0, 3⟩, ⟨1, 2⟩, ⟨0, 2⟩, ⟨3, 0⟩, ⟨0, 1⟩]

/-- A small blank four-line figure on which the refinement engine runs to
completion. -/
def linesBlank4 : List Line := [⟨0, 0⟩, ⟨1, 0⟩, ⟨0, 0⟩, ⟨3, 0⟩]

/-- The blank spiral state wrapping linesBlank4. -/
def spBlank4 : Spiral := ⟨linesBlank4, false, 0, 0⟩

/-- Start index of line k in the coordinate cache: the summed lengths of
all earlier lines. -/
def lineStartIdx (lines : List Line) (k : Nat) : Nat := sxbp_sum_lines lines 0 k

/-- The coordinate of a vector measured along direction d: its dot product
with the unit vector of d. -/
def alongAxis (d : Nat) (v : Pt) : Int :=
  v.x * (vectorDirection d).x + v.y * (vectorDirection d).y

/-- The displacement from a to b measured along direction d. -/
def dispAlong (d : Nat) (a b : Pt) : Int := alongAxis d ⟨b.x - a.x, b.y - a.y⟩

theorem sum_lines_from_zero (lines : List Line) (k : Nat) :
    sxbp_sum_lines lines 0 k = ((lines.take k).map (fun l => l.length)).sum := by
  simp [sxbp_sum_lines]

theorem lineStartIdx_succ (lines : List Line) (k : Nat) :
    lineStartIdx lines (k + 1) = lineStartIdx lines k + (lineGetD lines k).length := by
  simp only [lineStartIdx, sum_lines_from_zero, List.take_succ]
  rcases h : lines[k]? with _ | l
  · simp [lineGetD, List.getD_eq_getElem?_getD, h]
  · simp [lineGetD, List.getD_eq_getElem?_getD, h]

theorem lineStartIdx_zero (lines : List Line) : lineStartIdx lines 0 = 0 := by
  simp [lineStartIdx, sxbp_sum_lines]

theorem lineStartIdx_mono (lines : List Line) {a b : Nat} (h : a ≤ b) :
    lineStartIdx lines a ≤ lineStartIdx lines b := by
  induction b with
  | zero =>
    have : a = 0 := by omega
    simp [this]
  | succ n ih =>
    rcases Nat.lt_or_ge a (n + 1) with h1 | h1
    · have := ih (by omega)
      rw [lineStartIdx_succ]
      omega
    · have ha : a = n + 1 := by omega
      rw [ha]

theorem lineStartIdx_lt_of_pos (lines : List Line) {a b : Nat} (h : a < b)
    (hpos : 1 ≤ (lineGetD lines a).length) :
    lineStartIdx lines a < lineStartIdx lines b := by
  have h1 := lineStartIdx_succ lines a
  have h2 := lineStartIdx_mono lines (show a + 1 ≤ b by omega)
  omega

theorem walkSteps_cons (l : Line) (rest : List Line) :
    walkSteps (l :: rest) =
      List.replicate l.length (vectorDirection l.direction) ++ walkSteps rest := by
  simp [walkSteps]

theorem walkSteps_append (xs ys : List Line) :
    walkSteps (xs ++ ys) = walkSteps xs ++ walkSteps ys := by
  simp [walkSteps]

theorem walkSteps_length (ls : List Line) :
    (walkSteps ls).length = ((ls.map (fun l => l.length)).sum) := by
  induction ls with
  | nil => simp [walkSteps]
  | cons l rest ih => simp [walkSteps_cons, ih]

theorem cache_length (lines : List Line) (limit : Nat) :
    (sxbp_cache_spiral_points lines limit).length = sxbp_sum_lines lines 0 limit + 1 := by
  simp [sxbp_cache_spiral_points, List.length_scanl, walkSteps_length, sum_lines_from_zero]

theorem scanl_getD (steps : List Pt) (z : Pt) (i : Nat) (h : i ≤ steps.length) :
    (steps.scanl ptAdd z).getD i origin = (steps.take i).foldl ptAdd z := by
  induction steps generalizing z i with
  | nil =>
    have : i = 0 := by simpa using h
    simp [this]
  | cons a rest ih =>
    rw [List.scanl_cons]
    cases i with
    | zero => simp
    | succ n =>
      have hn : n ≤ rest.length := by simpa using h
      have := ih (ptAdd z a) n hn
      simpa [List.take_succ_cons] using this

theorem foldl_ptAdd_replicate (t : Nat) (v z : Pt) :
    (List.replicate t v).foldl ptAdd z = ptAdd z (ptScale t v) := by
  induction t generalizing z with
  | zero => simp [ptScale, ptAdd]
  | succ n ih =>
    rw [List.replicate_succ, List.foldl_cons, ih]
    simp only [ptAdd, ptScale]
    congr 1 <;> push_cast <;> ring

theorem foldl_walkSteps (ls : List Line) (z : Pt) :
    (walkSteps ls).foldl ptAdd z = ls.foldl lineEnd z := by
  induction ls generalizing z with
  | nil => simp [walkSteps]
  | cons l rest ih =>
    rw [walkSteps_cons, List.foldl_append, foldl_ptAdd_replicate, ih, List.foldl_cons]
    rfl

theorem segStart_take (lines : List Line) (k : Nat) :
    (walkSteps (lines.take k)).foldl ptAdd origin = segStart lines k := by
  rw [foldl_walkSteps]; rfl

theorem cache_getD (lines : List Line) (limit k t : Nat) (hk : k < limit)
    (hkN : k < lines.length) (ht : t ≤ (lineGetD lines k).length) :
    (sxbp_cache_spiral_points lines limit).getD (lineStartIdx lines k + t) origin =
      ptAdd (segStart lines k) (ptScale t (vectorDirection (lineGetD lines k).direction)) := by
  have hsplit : lines.take limit = lines.take k ++ (lineGetD lines k :: (lines.drop (k + 1)).take (limit - (k + 1))) := by
    have h1 : lines.take limit = lines.take k ++ (lines.drop k).take (limit - k) := by
      rw [← List.take_add]; congr 1; omega
    rw [h1]
    congr 1
    have hdrop : lines.drop k = lines[k] :: lines.drop (k + 1) := List.drop_eq_getElem_cons hkN
    rw [hdrop]
    have : limit - k = (limit - (k + 1)) + 1 := by omega
    rw [this, List.take_succ_cons]
    congr 1
    simp [lineGetD, List.getD_eq_getElem?_getD, List.getElem?_eq_getElem hkN]
  have hidx : lineStartIdx lines k + t ≤ (walkSteps (lines.take limit)).length := by
    rw [walkSteps_length, ← sum_lines_from_zero]
    have h1 : lineStartIdx lines k + t ≤ lineStartIdx lines (k + 1) := by
      rw [lineStartIdx_succ]; omega
    have h2 := lineStartIdx_mono lines (show k + 1 ≤ limit by omega)
    simp only [lineStartIdx] at h1 h2 ⊢
    omega
  rw [sxbp_cache_spiral_points, scanl_getD _ _ _ hidx, hsplit, walkSteps_append, walkSteps_cons]
  have hlen : (walkSteps (lines.take k)).length = lineStartIdx lines k := by
    rw [walkSteps_length, ← sum_lines_from_zero]; rfl
  rw [← List.append_assoc]
  have htake : (walkSteps (lines.take k) ++ List.replicate (lineGetD lines k).length (vectorDirection (lineGetD lines k).direction) ++ walkSteps ((lines.drop (k + 1)).take (limit - (k + 1)))).take (lineStartIdx lines k + t) =
      walkSteps (lines.take k) ++ List.replicate t (vectorDirection (lineGetD lines k).direction) := by
    rw [List.append_assoc, ← hlen, List.take_append]
    congr 1
    rw [List.take_append_of_le_length (by simp [ht]), List.take_replicate]
    congr 1
    omega
  rw [htake, List.foldl_append, segStart_take, foldl_ptAdd_replicate]

theorem segStart_succ (lines : List Line) (k : Nat) (hk : k < lines.length) :
    segStart lines (k + 1) = lineEnd (segStart lines k) (lineGetD lines k) := by
  unfold segStart
  rw [List.take_succ, List.foldl_append]
  simp [lineGetD, List.getD_eq_getElem?_getD, List.getElem?_eq_getElem hk]

theorem mem_segPoints (lines : List Line) (k : Nat) (q : Pt) :
    q ∈ segPoints lines k ↔ ∃ t, t ≤ (lineGetD lines k).length ∧
      q = ptAdd (segStart lines k) (ptScale t (vectorDirection (lineGetD lines k).direction)) := by
  simp only [segPoints, List.mem_map, List.mem_range]
  constructor
  · rintro ⟨t, ht, rfl⟩; exact ⟨t, by omega, rfl⟩
  · rintro ⟨t, ht, rfl⟩; exact ⟨t, by omega, rfl⟩

theorem turnLines_length (cur : Nat) (bits : List Bool) :
    (turnLines cur bits).length = bits.length := by
  induction bits generalizing cur with
  | nil => rfl
  | cons b rest ih => simp [turnLines, ih]

theorem bufferBits_length (buffer : List Nat) :
    (bufferBits buffer).length = 8 * buffer.length := by
  induction buffer with
  | nil => rfl
  | cons byte rest ih =>
    simp only [bufferBits, List.flatMap_cons, List.length_append, List.length_map,
      List.length_range, List.length_cons] at *
    omega

theorem sxbp_init_spiral_length (buffer : List Nat) :
    (sxbp_init_spiral buffer).length = 8 * buffer.length + 1 := by
  simp [sxbp_init_spiral, turnLines_length, bufferBits_length]

theorem turnLines_all_zero (cur : Nat) (bits : List Bool) :
    ∀ l ∈ turnLines cur bits, l.length = 0 := by
  induction bits generalizing cur with
  | nil => intro l h; simp [turnLines] at h
  | cons b rest ih =>
    intro l h
    simp only [turnLines, List.mem_cons] at h
    rcases h with rfl | h
    · rfl
    · exact ih _ l h

theorem turnLines_getD_zero (cur : Nat) (b : Bool) (rest : List Bool) :
    (turnLines cur (b :: rest)).getD 0 ⟨0, 0⟩ =
      ⟨sxbp_change_direction cur (if b then ANTI_CLOCKWISE else CLOCKWISE), 0⟩ := by
  simp [turnLines]

theorem turnLines_getD_succ (bits : List Bool) (cur n : Nat) (h : n + 1 < bits.length) :
    (turnLines cur bits).getD (n + 1) ⟨0, 0⟩ =
      ⟨sxbp_change_direction ((turnLines cur bits).getD n ⟨0, 0⟩).direction
        (if bits.getD (n + 1) false then ANTI_CLOCKWISE else CLOCKWISE), 0⟩ := by
  induction bits generalizing cur n with
  | nil => simp at h
  | cons b rest ih =>
    cases n with
    | zero =>
      cases rest with
      | nil => simp at h
      | cons r rest2 => simp [turnLines]
    | succ m =>
      have hm : m + 1 < rest.length := by simpa using h
      have := ih (sxbp_change_direction cur (if b then ANTI_CLOCKWISE else CLOCKWISE)) m hm
      simp only [turnLines, List.getD_cons_succ]
      exact this

theorem bufferBits_getD (buffer : List Nat) (k : Nat) (h : k < 8 * buffer.length) :
    (bufferBits buffer).getD k false = msbBit buffer k := by
  induction buffer generalizing k with
  | nil => simp at h
  | cons byte rest ih =>
    simp only [bufferBits, List.flatMap_cons]
    rcases Nat.lt_or_ge k 8 with hk | hk
    · rw [List.getD_append _ _ _ _ (by simp [hk])]
      have h1 : ((List.range 8).map (fun b => decide (byte / 2 ^ (7 - b) % 2 = 1))).getD k false
          = decide (byte / 2 ^ (7 - k) % 2 = 1) := by
        rw [List.getD_eq_getElem?_getD]
        simp [List.getElem?_map, List.getElem?_range hk]
      rw [h1]
      have h2 : k / 8 = 0 := by omega
      have h3 : k % 8 = k := by omega
      simp [msbBit, h2, h3]
    · rw [List.getD_append_right _ _ _ _ (by simp [hk])]
      have hlen : ((List.range 8).map (fun b => decide (byte / 2 ^ (7 - b) % 2 = 1))).length = 8 := by
        simp
      rw [hlen]
      have hL : (byte :: rest).length = rest.length + 1 := rfl
      have h4 : k - 8 < 8 * rest.length := by omega
      have hb : (rest.flatMap fun byte2 => (List.range 8).map
          (fun b => decide (byte2 / 2 ^ (7 - b) % 2 = 1))) = bufferBits rest := rfl
      rw [hb, ih _ h4]
      have h5 : k / 8 = (k - 8) / 8 + 1 := by omega
      have h6 : (k - 8) % 8 = k % 8 := by omega
      simp [msbBit, h5, h6]

theorem lineGetD_set_ne (lines : List Line) (i len k : Nat) (h : k ≠ i) :
    lineGetD (setLineLength lines i len) k = lineGetD lines k := by
  simp [setLineLength, lineGetD, List.getD_eq_getElem?_getD,
    List.getElem?_set_ne (Ne.symm h)]

theorem setLineLength_length (lines : List Line) (i len : Nat) :
    (setLineLength lines i len).length = lines.length := by
  simp [setLineLength]

theorem resizeLoop_above (thresh index : Nat) (fuel : Nat) :
    ∀ sp curIdx curLen sp', curIdx ≤ index →
      resizeLoop thresh index fuel sp curIdx curLen = some sp' →
      ∀ k, index < k → lineGetD sp'.lines k = lineGetD sp.lines k := by
  induction fuel with
  | zero => intro sp curIdx curLen sp' hle h; simp [resizeLoop] at h
  | succ n ih =>
    intro sp curIdx curLen sp' hle h k hk
    rw [resizeLoop] at h
    rcases hc : spiral_collides (setLineLength sp.lines curIdx curLen) curIdx with _ | c
    · rw [hc] at h
      simp only at h
      by_cases he : curIdx = index
      · rw [if_neg (by simp [he])] at h
        have := Option.some.inj h
        rw [← this]
        exact lineGetD_set_ne _ _ _ _ (by omega)
      · rw [if_pos (by simp [he])] at h
        have h2 := ih _ (curIdx + 1) 1 sp' (by omega) h k hk
        rw [h2]
        exact lineGetD_set_ne _ _ _ _ (by omega)
    · rw [hc] at h
      simp only at h
      have h2 := ih _ (curIdx - 1) _ sp' (by omega) h k hk
      rw [h2]
      exact lineGetD_set_ne _ _ _ _ (by omega)

theorem de32_be32 (n : Nat) (h : n < 4294967296) :
    de32 (n / 16777216 % 256) (n / 65536 % 256) (n / 256 % 256) (n % 256) = n := by
  simp only [de32]
  omega

theorem records_length (lines : List Line) :
    (lines.flatMap (fun l => be32 (l.direction * 1073741824 + l.length))).length =
      4 * lines.length := by
  induction lines with
  | nil => rfl
  | cons l rest ih =>
    have h4 : (be32 (l.direction * 1073741824 + l.length)).length = 4 := rfl
    simp only [List.flatMap_cons, List.length_append, List.length_cons, ih, h4]
    omega

theorem parseRecords_cons (w n : Nat) (rest : List Nat) (hw : w < 4294967296) :
    parseRecords (n + 1) (be32 w ++ rest) =
      ⟨w / 1073741824, w % 1073741824⟩ :: parseRecords n rest := by
  show parseRecords (n + 1)
      (w / 16777216 % 256 :: w / 65536 % 256 :: w / 256 % 256 :: w % 256 :: rest) = _
  rw [parseRecords, de32_be32 w hw]

theorem parseRecords_flatMap (lines : List Line)
    (h : ∀ l ∈ lines, l.direction < 4 ∧ l.length < 1073741824) :
    parseRecords lines.length
      (lines.flatMap (fun l => be32 (l.direction * 1073741824 + l.length))) = lines := by
  induction lines with
  | nil => rfl
  | cons l rest ih =>
    have hl := h l (by simp)
    have hw : l.direction * 1073741824 + l.length < 4294967296 := by omega
    rw [List.flatMap_cons, List.length_cons, parseRecords_cons _ _ _ hw]
    have hdir : (l.direction * 1073741824 + l.length) / 1073741824 = l.direction := by omega
    have hlen : (l.direction * 1073741824 + l.length) % 1073741824 = l.length := by omega
    rw [hdir, hlen, ih (fun x hx => h x (by simp [hx]))]

/-- C8: serialising a valid figure (every direction a 2-bit code, every
length a 30-bit value, fewer than 2^32 segments) and deserialising the
result restores the segment list exactly, segment for segment. -/
theorem load_dump_roundtrip (lines : List Line)
    (hval : ∀ l ∈ lines, l.direction < 4 ∧ l.length < 1073741824)
    (hN : lines.length < 4294967296) :
    load_spiral (dump_spiral lines) = .ok lines := by
  have hrl := records_length lines
  have hb : be32 lines.length = [lines.length / 16777216 % 256, lines.length / 65536 % 256,
      lines.length / 256 % 256, lines.length % 256] := rfl
  simp only [load_spiral, dump_spiral, hb, List.cons_append, List.nil_append,
    List.length_cons, List.take_succ_cons, List.take_zero, List.getD_cons_succ,
    List.getD_cons_zero, List.drop_succ_cons, List.drop_zero]
  rw [if_neg (by omega)]
  rw [if_neg (by simp)]
  rw [if_neg (by simp)]
  rw [de32_be32 lines.length hN]
  rw [if_neg (by omega)]
  rw [parseRecords_flatMap lines hval]

theorem filter_interval_length (p : Nat → Bool) (b : Nat)
    (hp : ∀ c, p c = true ↔ (1 ≤ c ∧ c < b)) :
    ∀ n, ((List.range n).filter p).length = min n b - 1 := by
  intro n
  induction n with
  | zero => simp
  | succ m ih =>
    rw [List.range_succ, List.filter_append, List.length_append, ih]
    by_cases hm : p m = true
    · have h2 := (hp m).mp hm
      have hfl : (List.filter p [m]).length = 1 := by simp [hm]
      rw [hfl]
      omega
    · have h2 : ¬(1 ≤ m ∧ m < b) := fun hc => hm ((hp m).mpr hc)
      have hfl : (List.filter p [m]).length = 0 := by simp [hm]
      rw [hfl]
      omega

theorem attribLine_eq (lines : List Line) (i lc : Nat)
    (hlc : lc < lines.length)
    (hup : i ≤ lineStartIdx lines (lc + 1))
    (hlo : lc = 0 ∨ lineStartIdx lines lc < i) :
    attribLine lines i = lc := by
  unfold attribLine
  have hp : ∀ c, (decide (0 < c) && decide (sxbp_sum_lines lines 0 c < i)) = true ↔
      (1 ≤ c ∧ c < lc + 1) := by
    intro c
    simp only [Bool.and_eq_true, decide_eq_true_eq]
    constructor
    · rintro ⟨h1, h2⟩
      refine ⟨h1, ?_⟩
      by_contra hgt
      have hge : lc + 1 ≤ c := by omega
      have := lineStartIdx_mono lines hge
      simp only [lineStartIdx] at this hup
      omega
    · rintro ⟨h1, h2⟩
      refine ⟨h1, ?_⟩
      have hle : c ≤ lc := by omega
      have := lineStartIdx_mono lines hle
      rcases hlo with rfl | hlo
      · omega
      · simp only [lineStartIdx] at this hlo
        omega
  rw [filter_interval_length _ _ hp]
  omega

theorem collideLoop_step (items : List Pt) (lines : List Line)
    (size sL lC rem i lc ttl : Nat) :
    collideLoop items lines size sL lC (rem + 1) i lc ttl =
      if pointMatch items sL lC i then some lc
      else if ttlDec ttl = 0 then
        (if lc + 1 = size - 2 - 1 then none
         else collideLoop items lines size sL lC rem (i + 1) (lc + 1)
           (lineGetD lines (lc + 1)).length)
      else
        (if lc = size - 2 - 1 then none
         else collideLoop items lines size sL lC rem (i + 1) lc (ttlDec ttl)) := by
  by_cases h1 : pointMatch items sL lC i = true
  · simp [collideLoop, h1]
  · by_cases h2 : ttlDec ttl = 0 <;> simp [collideLoop, h1, h2]

theorem collideLoop_run (lines : List Line) (index : Nat)
    (hidx : index < lines.length) (hsz : 4 ≤ lines.length)
    (hpos : ∀ k, k < index → 1 ≤ (lineGetD lines k).length) :
    ∀ rem i lc ttl,
      rem + i = lineStartIdx lines index →
      lc + 3 < lines.length →
      ttl + i = lineStartIdx lines (lc + 1) + 1 →
      1 ≤ ttl →
      (lc = 0 ∨ lineStartIdx lines lc < i) →
      collideLoop (sxbp_cache_spiral_points lines (index + 1)) lines lines.length
          (lineStartIdx lines index) (lineStartIdx lines (index + 1) + 1) rem i lc ttl =
        ((List.range' i (scanBound lines index - i)).find?
          (fun t => hitsLast lines index t)).map (attribLine lines) := by
  intro rem
  induction rem with
  | zero =>
    intro i lc ttl h1 h4 h2 h2b h3
    have hsb : scanBound lines index =
        min (lineStartIdx lines index) (lineStartIdx lines (lines.length - 3) + 1) := rfl
    have hb : scanBound lines index - i = 0 := by omega
    rw [hb]
    simp [collideLoop]
  | succ m ih =>
    intro i lc ttl h1 h4 h2 h2b h3
    have hsb : scanBound lines index =
        min (lineStartIdx lines index) (lineStartIdx lines (lines.length - 3) + 1) := rfl
    have hiS : i < lineStartIdx lines index := by omega
    have hmono1 : lineStartIdx lines (lc + 1) ≤ lineStartIdx lines (lines.length - 3) :=
      lineStartIdx_mono lines (by omega)
    have hib : i < scanBound lines index := by omega
    have hpm : pointMatch (sxbp_cache_spiral_points lines (index + 1))
        (lineStartIdx lines index) (lineStartIdx lines (index + 1) + 1) i =
        hitsLast lines index i := rfl
    have hsplit : scanBound lines index - i = (scanBound lines index - (i + 1)) + 1 := by
      omega
    rw [collideLoop_step, hpm]
    by_cases hhit : hitsLast lines index i = true
    · rw [if_pos hhit, hsplit, List.range'_succ, List.find?_cons_of_pos _ hhit]
      have hattr := attribLine_eq lines i lc (by omega) (by omega) h3
      simp [hattr]
    · rw [if_neg hhit, hsplit, List.range'_succ, List.find?_cons_of_neg _ hhit]
      have ht1 : ttlDec ttl = ttl - 1 := by
        unfold ttlDec
        rw [if_neg (by omega)]
      rw [ht1]
      by_cases httl : ttl = 1
      · rw [if_pos (by omega)]
        have hieq : i = lineStartIdx lines (lc + 1) := by omega
        have hlt : lc + 1 < index := by
          by_contra hge
          have := lineStartIdx_mono lines (show index ≤ lc + 1 by omega)
          omega
        by_cases hbrk : lc + 1 = lines.length - 2 - 1
        · rw [if_pos hbrk]
          have hidx3 : lc + 1 = lines.length - 3 := by omega
          have heq3 : lineStartIdx lines (lc + 1) = lineStartIdx lines (lines.length - 3) := by
            rw [hidx3]
          have hempty : scanBound lines index - (i + 1) = 0 := by omega
          rw [hempty]
          simp
        · rw [if_neg hbrk]
          exact ih (i + 1) (lc + 1) _ (by omega) (by omega)
            (by have := lineStartIdx_succ lines (lc + 1); omega)
            (hpos (lc + 1) hlt) (Or.inr (by omega))
      · rw [if_neg (by omega)]
        rw [if_neg (show ¬(lc = lines.length - 2 - 1) by omega)]
        refine ih (i + 1) lc (ttl - 1) (by omega) h4 (by omega) (by omega) ?_
        rcases h3 with h | h
        exacts [Or.inl h, Or.inr (by omega)]

theorem spiral_collides_eq_scanSpec (lines : List Line) (index : Nat)
    (hidx : index < lines.length)
    (hpos : ∀ k, k < index → 1 ≤ (lineGetD lines k).length)
    (hS : sxbp_sum_lines lines 0 index < 4294967296) :
    spiral_collides lines index = scanSpec lines index := by
  by_cases hsz : lines.length < 4
  · simp [spiral_collides, scanSpec, hsz]
  · have hsz4 : 4 ≤ lines.length := by omega
    simp only [spiral_collides, scanSpec, matchedIdx, if_neg hsz]
    rw [cache_length lines (index + 1)]
    have hsucc := lineStartIdx_succ lines index
    have hLS : sxbp_sum_lines lines 0 (index + 1) = lineStartIdx lines (index + 1) := rfl
    have harith : (sxbp_sum_lines lines 0 (index + 1) + 1 - (lineGetD lines index).length - 1)
        % 4294967296 = lineStartIdx lines index := by
      have heq : sxbp_sum_lines lines 0 (index + 1) + 1 - (lineGetD lines index).length - 1 =
          lineStartIdx lines index := by
        unfold lineStartIdx at *
        omega
      rw [heq]
      exact Nat.mod_eq_of_lt hS
    rw [harith, hLS]
    have h01 := lineStartIdx_succ lines 0
    have h00 := lineStartIdx_zero lines
    rw [collideLoop_run lines index hidx hsz4 hpos (lineStartIdx lines index) 0 0
      ((lineGetD lines 0).length + 1) (by omega) (by omega) (by omega) (by omega)
      (Or.inl rfl)]
    rw [Nat.sub_zero, ← List.range_eq_range']

theorem hitsLast_iff (lines : List Line) (index i : Nat) (hidx : index < lines.length) :
    hitsLast lines index i = true ↔
      ((sxbp_cache_spiral_points lines (index + 1)).getD i origin) ∈ segPoints lines index := by
  have hsucc := lineStartIdx_succ lines index
  have hcnt : sxbp_sum_lines lines 0 (index + 1) + 1 - sxbp_sum_lines lines 0 index =
      (lineGetD lines index).length + 1 := by
    unfold lineStartIdx at hsucc
    omega
  unfold hitsLast pointMatch
  rw [hcnt, List.any_eq_true]
  constructor
  · rintro ⟨j, hj, hEq⟩
    rw [List.mem_range'] at hj
    obtain ⟨t, ht, rfl⟩ := hj
    rw [decide_eq_true_eq] at hEq
    have hget := cache_getD lines (index + 1) index t (by omega) hidx (by omega)
    rw [mem_segPoints]
    refine ⟨t, by omega, ?_⟩
    rw [hEq]
    rw [show sxbp_sum_lines lines 0 index + 1 * t = lineStartIdx lines index + t by
      unfold lineStartIdx; omega]
    exact hget
  · intro hmem
    rw [mem_segPoints] at hmem
    obtain ⟨t, ht, hq⟩ := hmem
    refine ⟨sxbp_sum_lines lines 0 index + 1 * t, ?_, ?_⟩
    · rw [List.mem_range']
      exact ⟨t, by omega, rfl⟩
    · rw [decide_eq_true_eq]
      have hget := cache_getD lines (index + 1) index t (by omega) hidx ht
      rw [show sxbp_sum_lines lines 0 index + 1 * t = lineStartIdx lines index + t by
        unfold lineStartIdx; omega]
      rw [hget, ← hq]

theorem find?_range'_first (p : Nat → Bool) :
    ∀ n s a, (List.range' s n).find? p = some a →
      s ≤ a ∧ a < s + n ∧ p a = true ∧ ∀ t, s ≤ t → t < a → ¬ p t = true := by
  intro n
  induction n with
  | zero => intro s a h; simp at h
  | succ m ih =>
    intro s a h
    rw [List.range'_succ] at h
    by_cases hp : p s = true
    · rw [List.find?_cons_of_pos _ hp] at h
      have : a = s := by
        have := Option.some.inj h
        omega
      subst this
      exact ⟨le_refl _, by omega, hp, fun t h1 h2 => by omega⟩
    · rw [List.find?_cons_of_neg _ hp] at h
      obtain ⟨h1, h2, h3, h4⟩ := ih (s + 1) a h
      refine ⟨by omega, by omega, h3, ?_⟩
      intro t ht1 ht2
      rcases Nat.eq_or_lt_of_le ht1 with rfl | hlt
      · exact hp
      · exact h4 t (by omega) ht2

theorem attribution_exists (lines : List Line) :
    ∀ index, (∀ k, k < index → 1 ≤ (lineGetD lines k).length) →
    ∀ i, i < lineStartIdx lines index →
    ∃ m, m < index ∧ (m = 0 ∨ lineStartIdx lines m < i) ∧
      i ≤ lineStartIdx lines (m + 1) := by
  intro index
  induction index with
  | zero =>
    intro _ i hi
    rw [lineStartIdx_zero] at hi
    omega
  | succ n ih =>
    intro hpos i hi
    by_cases hSn : lineStartIdx lines n < i
    · refine ⟨n, by omega, Or.inr hSn, by omega⟩
    · by_cases hn0 : n = 0
      · subst hn0
        refine ⟨0, by omega, Or.inl rfl, ?_⟩
        have h0 := lineStartIdx_zero lines
        have h1 := lineStartIdx_mono lines (show 0 ≤ 1 by omega)
        omega
      · by_cases hieq : i = lineStartIdx lines n
        · refine ⟨n - 1, by omega, ?_, ?_⟩
          · right
            have := lineStartIdx_lt_of_pos lines (show n - 1 < n by omega)
              (hpos (n - 1) (by omega))
            omega
          · have hsucc : n - 1 + 1 = n := by omega
            rw [hsucc]
            omega
        · obtain ⟨m, hm1, hm2, hm3⟩ := ih (fun k hk => hpos k (by omega)) i (by omega)
          exact ⟨m, by omega, hm2, hm3⟩

theorem segPoint_cache (lines : List Line) (index m i : Nat)
    (hm : m < index) (hmi : index < lines.length)
    (hup : i ≤ lineStartIdx lines (m + 1))
    (hlo : m = 0 ∨ lineStartIdx lines m < i) :
    (sxbp_cache_spiral_points lines (index + 1)).getD i origin ∈ segPoints lines m := by
  have hSm : lineStartIdx lines m ≤ i := by
    rcases hlo with rfl | h
    · rw [lineStartIdx_zero]; omega
    · omega
  have hsucc := lineStartIdx_succ lines m
  have hget := cache_getD lines (index + 1) m (i - lineStartIdx lines m)
    (by omega) (by omega) (by omega)
  rw [mem_segPoints]
  refine ⟨i - lineStartIdx lines m, by omega, ?_⟩
  rw [show lineStartIdx lines m + (i - lineStartIdx lines m) = i from by omega] at hget
  rw [hget]

theorem cache_of_segPoint (lines : List Line) (index m : Nat) (q : Pt)
    (hm : m < index) (hmi : index < lines.length)
    (hq : q ∈ segPoints lines m) :
    ∃ i, i ≤ lineStartIdx lines (m + 1) ∧ lineStartIdx lines m ≤ i ∧
      (sxbp_cache_spiral_points lines (index + 1)).getD i origin = q := by
  rw [mem_segPoints] at hq
  obtain ⟨t, ht, rfl⟩ := hq
  have hget := cache_getD lines (index + 1) m t (by omega) (by omega) ht
  refine ⟨lineStartIdx lines m + t, ?_, by omega, hget⟩
  have := lineStartIdx_succ lines m
  omega

theorem collides_some_spec (lines : List Line) (index c : Nat)
    (hidx : index < lines.length)
    (hpos : ∀ k, k < index → 1 ≤ (lineGetD lines k).length)
    (hS : sxbp_sum_lines lines 0 index < 4294967296)
    (hc : spiral_collides lines index = some c) :
    c < index ∧
    (∃ q, q ∈ segPoints lines c ∧ q ∈ segPoints lines index) ∧
    (∀ j, j < c → ∀ q, q ∈ segPoints lines j → q ∉ segPoints lines index) := by
  rw [spiral_collides_eq_scanSpec lines index hidx hpos hS] at hc
  unfold scanSpec at hc
  by_cases hsz : lines.length < 4
  · rw [if_pos hsz] at hc; simp at hc
  rw [if_neg hsz] at hc
  rcases hmi : matchedIdx lines index with _ | istar
  · rw [hmi] at hc; simp at hc
  rw [hmi] at hc
  have hattr : attribLine lines istar = c := by simpa using hc
  unfold matchedIdx at hmi
  rw [List.range_eq_range'] at hmi
  obtain ⟨-, hlt, hhit, hfirst⟩ := find?_range'_first _ _ _ _ hmi
  have histar : istar < scanBound lines index := by omega
  have hsb : scanBound lines index =
      min (lineStartIdx lines index) (lineStartIdx lines (lines.length - 3) + 1) := rfl
  have hiS : istar < lineStartIdx lines index := by omega
  obtain ⟨m, hm1, hm2, hm3⟩ := attribution_exists lines index hpos istar hiS
  have hmc : c = m := by
    rw [← hattr]
    exact attribLine_eq lines istar m (by omega) hm3 hm2
  subst hmc
  refine ⟨hm1, ?_, ?_⟩
  · refine ⟨(sxbp_cache_spiral_points lines (index + 1)).getD istar origin, ?_, ?_⟩
    · exact segPoint_cache lines index c istar hm1 hidx hm3 hm2
    · exact (hitsLast_iff lines index istar hidx).mp hhit
  · intro j hj q hq hqidx
    have hc1 : 1 ≤ c := by omega
    have hSc : lineStartIdx lines c < istar := by
      rcases hm2 with h | h
      · omega
      · exact h
    obtain ⟨i, hi1, hi2, hi3⟩ := cache_of_segPoint lines index j q (by omega) hidx hq
    have hmono : lineStartIdx lines (j + 1) ≤ lineStartIdx lines c :=
      lineStartIdx_mono lines (by omega)
    have hnot := hfirst i (by omega) (by omega)
    rw [hitsLast_iff lines index i hidx, hi3] at hnot
    exact hnot hqidx

theorem collides_none_disjoint (lines : List Line) (index j : Nat)
    (hidx : index < lines.length)
    (hpos : ∀ k, k < index → 1 ≤ (lineGetD lines k).length)
    (hS : sxbp_sum_lines lines 0 index < 4294967296)
    (hj3 : j + 3 ≤ index)
    (hnone : spiral_collides lines index = none) :
    ∀ q, q ∈ segPoints lines j → q ∉ segPoints lines index := by
  by_cases hsz : lines.length < 4
  · omega
  rw [spiral_collides_eq_scanSpec lines index hidx hpos hS] at hnone
  unfold scanSpec at hnone
  rw [if_neg hsz] at hnone
  have hmi : matchedIdx lines index = none := by
    rcases h : matchedIdx lines index with _ | a
    · rfl
    · rw [h] at hnone; simp at hnone
  unfold matchedIdx at hmi
  rw [List.find?_eq_none] at hmi
  intro q hq hqindex
  obtain ⟨i, hi1, hi2, hi3⟩ := cache_of_segPoint lines index j q (by omega) hidx hq
  have hsb : scanBound lines index =
      min (lineStartIdx lines index) (lineStartIdx lines (lines.length - 3) + 1) := rfl
  have hmono1 : lineStartIdx lines (j + 1) ≤ lineStartIdx lines (index - 2) :=
    lineStartIdx_mono lines (by omega)
  have hmono2 : lineStartIdx lines (index - 2) ≤ lineStartIdx lines (index - 1) :=
    lineStartIdx_mono lines (by omega)
  have hstep : lineStartIdx lines index =
      lineStartIdx lines (index - 1) + (lineGetD lines (index - 1)).length := by
    have := lineStartIdx_succ lines (index - 1)
    rw [show index - 1 + 1 = index from by omega] at this
    exact this
  have hlen1 : 1 ≤ (lineGetD lines (index - 1)).length := hpos _ (by omega)
  have hmono3 : lineStartIdx lines (index - 2) ≤ lineStartIdx lines (lines.length - 3) :=
    lineStartIdx_mono lines (by omega)
  have hib : i < scanBound lines index := by omega
  have hnh := hmi i (by rw [List.mem_range]; exact hib)
  rw [hitsLast_iff lines index i hidx, hi3] at hnh
  exact hnh hqindex

theorem ptScale_inj (d : Nat) (hd : d < 4) (s : Pt) (t u : Nat)
    (h : ptAdd s (ptScale t (vectorDirection d)) = ptAdd s (ptScale u (vectorDirection d))) :
    t = u := by
  interval_cases d <;>
    · simp only [vectorDirection, ptAdd, ptScale, Pt.mk.injEq] at h
      norm_num at h
      omega

theorem adjacent_inter (lines : List Line) (k : Nat) (hk : k + 1 < lines.length)
    (hd1 : (lineGetD lines k).direction < 4)
    (hd2 : (lineGetD lines (k + 1)).direction < 4)
    (hperp : (lineGetD lines k).direction % 2 ≠ (lineGetD lines (k + 1)).direction % 2) :
    ∀ q, (q ∈ segPoints lines k ∧ q ∈ segPoints lines (k + 1)) ↔
      q = segStart lines (k + 1) := by
  have hs1 : segStart lines (k + 1) = lineEnd (segStart lines k) (lineGetD lines k) :=
    segStart_succ lines k (by omega)
  intro q
  constructor
  · rintro ⟨hq1, hq2⟩
    rw [mem_segPoints] at hq1 hq2
    obtain ⟨t, ht, hqa⟩ := hq1
    obtain ⟨u, hu, hqb⟩ := hq2
    rw [hs1] at hqb
    have hEq : ptAdd (segStart lines k)
        (ptScale t (vectorDirection (lineGetD lines k).direction)) =
        ptAdd (lineEnd (segStart lines k) (lineGetD lines k))
        (ptScale u (vectorDirection (lineGetD lines (k + 1)).direction)) :=
      hqa.symm.trans hqb
    have hu0 : u = 0 ∧ t = (lineGetD lines k).length := by
      rcases hL0 : lineGetD lines k with ⟨d0, L0⟩
      rcases hL1 : lineGetD lines (k + 1) with ⟨d1, L1⟩
      simp only [hL0, hL1] at hEq hd1 hd2 hperp ht ⊢
      interval_cases d0 <;> interval_cases d1 <;>
        first
          | omega
          | (simp only [vectorDirection, ptAdd, ptScale, lineEnd, Pt.mk.injEq] at hEq
             norm_num at hEq
             omega)
    rw [hqb, hu0.1, hs1]
    simp [ptScale, ptAdd]
  · intro hq
    constructor
    · rw [mem_segPoints]
      refine ⟨(lineGetD lines k).length, le_refl _, ?_⟩
      rw [hq, hs1]
      rfl
    · rw [mem_segPoints]
      refine ⟨0, by omega, ?_⟩
      rw [hq]
      simp [ptScale, ptAdd]

theorem skip_one_disjoint (lines : List Line) (k : Nat) (hk : k + 2 < lines.length)
    (hd0 : (lineGetD lines k).direction < 4)
    (hd1 : (lineGetD lines (k + 1)).direction < 4)
    (hd2 : (lineGetD lines (k + 2)).direction < 4)
    (hperp1 : (lineGetD lines k).direction % 2 ≠ (lineGetD lines (k + 1)).direction % 2)
    (hperp2 : (lineGetD lines (k + 1)).direction % 2 ≠ (lineGetD lines (k + 2)).direction % 2)
    (hlen : 1 ≤ (lineGetD lines (k + 1)).length) :
    ∀ q, q ∈ segPoints lines k → q ∉ segPoints lines (k + 2) := by
  intro q hq1 hq2
  rw [mem_segPoints] at hq1 hq2
  obtain ⟨t, ht, hqa⟩ := hq1
  obtain ⟨u, hu, hqb⟩ := hq2
  have hs1 : segStart lines (k + 1) = lineEnd (segStart lines k) (lineGetD lines k) :=
    segStart_succ lines k (by omega)
  have hs2 : segStart lines (k + 2) = lineEnd (segStart lines (k + 1)) (lineGetD lines (k + 1)) :=
    segStart_succ lines (k + 1) (by omega)
  rw [hs2, hs1] at hqb
  have hEq : ptAdd (segStart lines k)
      (ptScale t (vectorDirection (lineGetD lines k).direction)) =
      ptAdd (lineEnd (lineEnd (segStart lines k) (lineGetD lines k)) (lineGetD lines (k + 1)))
      (ptScale u (vectorDirection (lineGetD lines (k + 2)).direction)) :=
    hqa.symm.trans hqb
  rcases hL0 : lineGetD lines k with ⟨d0, L0⟩
  rcases hL1 : lineGetD lines (k + 1) with ⟨d1, L1⟩
  rcases hL2 : lineGetD lines (k + 2) with ⟨d2, L2⟩
  rw [hL0] at hEq hd0 hperp1 ht
  rw [hL1] at hEq hd1 hperp1 hperp2 hlen
  rw [hL2] at hEq hd2 hperp2 hu
  simp only at hEq hd0 hd1 hd2 hperp1 hperp2 hlen ht hu
  interval_cases d0 <;> interval_cases d1 <;> interval_cases d2 <;>
    first
      | omega
      | (simp only [vectorDirection, ptAdd, ptScale, lineEnd, Pt.mk.injEq] at hEq
         norm_num at hEq
         omega)

theorem pairwise_of_collides_none (lines : List Line) (M : Nat)
    (hM : M ≤ lines.length)
    (hb : sxbp_sum_lines lines 0 M < 4294967296)
    (hdirs : ∀ k, k < M → (lineGetD lines k).direction < 4)
    (hperp : ∀ k, k + 1 < M →
      (lineGetD lines k).direction % 2 ≠ (lineGetD lines (k + 1)).direction % 2)
    (hpos : ∀ k, k < M → 1 ≤ (lineGetD lines k).length)
    (hcoll : ∀ k, k < M → spiral_collides lines k = none) :
    ∀ i j, i < j → j < M →
      ((j = i + 1 → ∀ q, (q ∈ segPoints lines i ∧ q ∈ segPoints lines j) ↔
          q = segStart lines j) ∧
       (i + 1 < j → ∀ q, q ∈ segPoints lines i → q ∉ segPoints lines j)) := by
  intro i j hij hjM
  constructor
  · intro hji
    subst hji
    exact adjacent_inter lines i (by omega) (hdirs i (by omega)) (hdirs (i + 1) (by omega))
      (hperp i (by omega))
  · intro hlt q hq
    by_cases hj2 : i + 2 = j
    · subst hj2
      exact skip_one_disjoint lines i (by omega) (hdirs i (by omega))
        (hdirs (i + 1) (by omega)) (hdirs (i + 2) (by omega))
        (hperp i (by omega)) (hperp (i + 1) (by omega))
        (hpos (i + 1) (by omega)) q hq
    · exact collides_none_disjoint lines j i (by omega)
        (fun k hk => hpos k (by omega))
        (lt_of_le_of_lt (lineStartIdx_mono lines (le_of_lt hjM)) hb)
        (by omega) (hcoll j hjM) q hq

theorem take_eq_of_agree (lines1 lines2 : List Line) (j : Nat)
    (hlen : lines1.length = lines2.length)
    (hagree : ∀ m, m ≤ j → lineGetD lines1 m = lineGetD lines2 m) :
    lines1.take (j + 1) = lines2.take (j + 1) := by
  apply List.ext_getElem?
  intro m
  rw [List.getElem?_take, List.getElem?_take]
  by_cases hm : m < j + 1
  · rw [if_pos hm, if_pos hm]
    have := hagree m (by omega)
    simp only [lineGetD, List.getD_eq_getElem?_getD] at this
    rcases h1 : lines1[m]? with _ | a
    · rcases h2 : lines2[m]? with _ | b
      · rfl
      · have hm1 : lines1.length ≤ m := by
          rw [← List.getElem?_eq_none_iff]; exact h1
        have hm2 : m < lines2.length := by
          by_contra hc
          rw [List.getElem?_eq_none_iff.mpr (by omega)] at h2
          exact absurd h2 (by simp)
        omega
    · rcases h2 : lines2[m]? with _ | b
      · have hm1 : m < lines1.length := by
          by_contra hc
          rw [List.getElem?_eq_none_iff.mpr (by omega)] at h1
          exact absurd h1 (by simp)
        have hm2 : lines2.length ≤ m := by
          rw [← List.getElem?_eq_none_iff]; exact h2
        omega
      · rw [h1, h2] at this
        simp only [Option.getD_some] at this
        rw [this]
  · rw [if_neg hm, if_neg hm]

theorem lineStartIdx_agree (lines1 lines2 : List Line) (j : Nat)
    (hlen : lines1.length = lines2.length)
    (hagree : ∀ m, m ≤ j → lineGetD lines1 m = lineGetD lines2 m) :
    ∀ m, m ≤ j + 1 → lineStartIdx lines1 m = lineStartIdx lines2 m := by
  intro m hm
  rw [lineStartIdx, lineStartIdx, sum_lines_from_zero, sum_lines_from_zero]
  have htake := take_eq_of_agree lines1 lines2 j hlen hagree
  have : lines1.take m = lines2.take m := by
    have h1 : lines1.take m = (lines1.take (j + 1)).take m := by
      rw [List.take_take, min_eq_left hm]
    have h2 : lines2.take m = (lines2.take (j + 1)).take m := by
      rw [List.take_take, min_eq_left hm]
    rw [h1, h2, htake]
  rw [this]

theorem collideLoop_congr (lines1 lines2 : List Line) (items : List Pt)
    (size sL lC j : Nat)
    (hlen : lines1.length = lines2.length)
    (hagree : ∀ m, m ≤ j → lineGetD lines1 m = lineGetD lines2 m)
    (hsL : sL ≤ lineStartIdx lines1 j) :
    ∀ rem i lc ttl,
      i + rem ≤ sL →
      lineStartIdx lines1 (lc + 1) + 1 ≤ i + ttl →
      lc ≤ j →
      collideLoop items lines1 size sL lC rem i lc ttl =
        collideLoop items lines2 size sL lC rem i lc ttl := by
  intro rem
  induction rem with
  | zero => intro i lc ttl h1 h2 h3; simp [collideLoop]
  | succ m ih =>
    intro i lc ttl h1 h2 h3
    rw [collideLoop_step, collideLoop_step]
    by_cases hhit : pointMatch items sL lC i = true
    · rw [if_pos hhit, if_pos hhit]
    · rw [if_neg hhit, if_neg hhit]
      by_cases ht0 : ttlDec ttl = 0
      · rw [if_pos ht0, if_pos ht0]
        have httl1 : ttl = 1 := by
          unfold ttlDec at ht0
          by_cases hz : ttl = 0
          · rw [if_pos hz] at ht0; omega
          · rw [if_neg hz] at ht0; omega
        have hSle : lineStartIdx lines1 (lc + 1) ≤ i := by omega
        have hlcj : lc + 1 < j := by
          by_contra hge
          have := lineStartIdx_mono lines1 (show j ≤ lc + 1 by omega)
          omega
        have hread : lineGetD lines1 (lc + 1) = lineGetD lines2 (lc + 1) :=
          hagree (lc + 1) (by omega)
        rw [hread]
        by_cases hbrk : lc + 1 = size - 2 - 1
        · rw [if_pos hbrk, if_pos hbrk]
        · rw [if_neg hbrk, if_neg hbrk]
          apply ih (i + 1) (lc + 1) ((lineGetD lines2 (lc + 1)).length)
            (by omega) ?_ (by omega)
          have hstep := lineStartIdx_succ lines1 (lc + 1)
          rw [hread] at hstep
          omega
      · rw [if_neg ht0, if_neg ht0]
        by_cases hbrk : lc = size - 2 - 1
        · rw [if_pos hbrk, if_pos hbrk]
        · rw [if_neg hbrk, if_neg hbrk]
          have hval : ttlDec ttl = ttl - 1 ∨ ttlDec ttl = 4294967295 := by
            unfold ttlDec
            by_cases hz : ttl = 0
            · rw [if_pos hz]; right; rfl
            · rw [if_neg hz]; left; rfl
          apply ih (i + 1) lc (ttlDec ttl) (by omega) ?_ h3
          unfold ttlDec at ht0 ⊢
          by_cases hz : ttl = 0
          · rw [if_pos hz]
            omega
          · rw [if_neg hz] at ht0 ⊢
            omega

theorem spiral_collides_congr (lines1 lines2 : List Line) (j : Nat)
    (hlen : lines1.length = lines2.length)
    (hagree : ∀ m, m ≤ j → lineGetD lines1 m = lineGetD lines2 m) :
    spiral_collides lines1 j = spiral_collides lines2 j := by
  unfold spiral_collides
  rw [hlen]
  by_cases hsz : lines2.length < 4
  · rw [if_pos hsz, if_pos hsz]
  rw [if_neg hsz, if_neg hsz]
  have htake := take_eq_of_agree lines1 lines2 j hlen hagree
  have hcache : sxbp_cache_spiral_points lines1 (j + 1) =
      sxbp_cache_spiral_points lines2 (j + 1) := by
    unfold sxbp_cache_spiral_points
    rw [htake]
  have hlast : lineGetD lines1 j = lineGetD lines2 j := hagree j (le_refl j)
  rw [hcache, hlast]
  have h0 : lineGetD lines1 0 = lineGetD lines2 0 := hagree 0 (by omega)
  rw [h0]
  apply collideLoop_congr lines1 lines2 _ _ _ _ j hlen hagree
  · have hclen := cache_length lines2 (j + 1)
    have hsucc := lineStartIdx_succ lines2 j
    have hSeq := lineStartIdx_agree lines1 lines2 j hlen hagree
    rw [hclen]
    unfold lineStartIdx at *
    have := hSeq j (by omega)
    omega
  · omega
  · have hsucc := lineStartIdx_succ lines1 0
    have h00 := lineStartIdx_zero lines1
    rw [h0] at hsucc
    omega
  · omega

theorem setLineLength_direction (lines : List Line) (i len k : Nat) :
    (lineGetD (setLineLength lines i len) k).direction = (lineGetD lines k).direction := by
  by_cases hik : k = i
  · subst hik
    by_cases hi : k < lines.length
    · simp [setLineLength, lineGetD, List.getD_eq_getElem?_getD, List.getElem?_set_self hi]
    · rw [setLineLength, List.set_eq_of_length_le (by omega)]
  · rw [lineGetD_set_ne lines i len k hik]

theorem resizeLoop_post (thresh index : Nat) (fuel : Nat) :
    ∀ sp curIdx curLen sp',
      curIdx ≤ index → index < sp.lines.length →
      (∀ j, j < curIdx → spiral_collides sp.lines j = none) →
      resizeLoop thresh index fuel sp curIdx curLen = some sp' →
      (sp'.lines.length = sp.lines.length ∧
       (∀ k, (lineGetD sp'.lines k).direction = (lineGetD sp.lines k).direction) ∧
       sp'.solvedCount = index + 1 ∧
       (∀ j, j ≤ index → spiral_collides sp'.lines j = none)) := by
  induction fuel with
  | zero => intro sp curIdx curLen sp' h1 h2 h3 h; simp [resizeLoop] at h
  | succ n ih =>
    intro sp curIdx curLen sp' h1 h2 h3 h
    rw [resizeLoop] at h
    have hlen1 : (setLineLength sp.lines curIdx curLen).length = sp.lines.length :=
      setLineLength_length sp.lines curIdx curLen
    have hinv1 : ∀ j, j < curIdx →
        spiral_collides (setLineLength sp.lines curIdx curLen) j = none := by
      intro j hj
      rw [spiral_collides_congr (setLineLength sp.lines curIdx curLen) sp.lines j hlen1
        (fun m hm => lineGetD_set_ne sp.lines curIdx curLen m (by omega))]
      exact h3 j hj
    have hdir1 : ∀ k, (lineGetD (setLineLength sp.lines curIdx curLen) k).direction =
        (lineGetD sp.lines k).direction :=
      fun k => setLineLength_direction sp.lines curIdx curLen k
    rcases hc : spiral_collides (setLineLength sp.lines curIdx curLen) curIdx with _ | c
    · rw [hc] at h
      simp only at h
      by_cases he : curIdx = index
      · rw [if_neg (by simp [he])] at h
        have hsp := Option.some.inj h
        subst he
        refine ⟨?_, ?_, ?_, ?_⟩
        · rw [← hsp]; exact hlen1
        · intro k; rw [← hsp]; exact hdir1 k
        · rw [← hsp]
        · intro j hj
          rw [← hsp]
          simp only
          rcases Nat.eq_or_lt_of_le hj with rfl | hlt
          · exact hc
          · exact hinv1 j (by omega)
      · rw [if_pos (by simp [he])] at h
        have hinv2 : ∀ j, j < curIdx + 1 →
            spiral_collides (setLineLength sp.lines curIdx curLen) j = none := by
          intro j hj
          rcases Nat.eq_or_lt_of_le (show j ≤ curIdx by omega) with rfl | hlt
          · exact hc
          · exact hinv1 j (by omega)
        obtain ⟨hl, hd, hs, hcol⟩ := ih _ (curIdx + 1) 1 sp' (by omega)
          (by rw [hlen1]; exact h2) hinv2 h
        refine ⟨by rw [hl, hlen1], ?_, hs, hcol⟩
        intro k
        rw [hd k, hdir1 k]
    · rw [hc] at h
      simp only at h
      obtain ⟨hl, hd, hs, hcol⟩ := ih _ (curIdx - 1) _ sp' (by omega)
        (by rw [hlen1]; exact h2) (fun j hj => hinv1 j (by omega)) h
      refine ⟨by rw [hl, hlen1], ?_, hs, hcol⟩
      intro k
      rw [hd k, hdir1 k]

theorem plotLoop_post (thresh fuel maxIndex : Nat) :
    ∀ steps i sp sp',
      maxIndex ≤ sp.lines.length →
      (steps = 0 ∨ steps + i = maxIndex) →
      sp.solvedCount ≤ sp.lines.length →
      (∀ j, j < sp.solvedCount → spiral_collides sp.lines j = none) →
      (∀ j, j < i → spiral_collides sp.lines j = none) →
      plotLoop thresh fuel maxIndex steps i sp = some sp' →
      (sp'.lines.length = sp.lines.length ∧
       (∀ k, (lineGetD sp'.lines k).direction = (lineGetD sp.lines k).direction) ∧
       (∀ j, j < sp'.solvedCount → spiral_collides sp'.lines j = none) ∧
       sp'.solvedCount ≤ sp'.lines.length) := by
  intro steps
  induction steps with
  | zero =>
    intro i sp sp' hmax hsi hsc hwf hi h
    rw [plotLoop] at h
    have := Option.some.inj h
    subst this
    exact ⟨rfl, fun k => rfl, hwf, hsc⟩
  | succ s ih =>
    intro i sp sp' hmax hsi hsc hwf hi h
    rw [plotLoop] at h
    rcases hr : sxbp_resize_spiral sp i 1 thresh fuel with _ | sp1
    · rw [hr] at h; simp at h
    · rw [hr] at h
      simp only at h
      have hiidx : i < maxIndex := by omega
      obtain ⟨hl1, hd1, hs1, hcol1⟩ := resizeLoop_post thresh i fuel sp i 1 sp1
        (le_refl i) (by omega) hi hr
      have hcol1b : ∀ j, j < i + 1 → spiral_collides sp1.lines j = none :=
        fun j hj => hcol1 j (by omega)
      obtain ⟨hl, hd, hcol, hsc'⟩ := ih (i + 1) sp1 sp' (by omega)
        (by omega) (by rw [hs1, hl1]; omega)
        (by rw [hs1]; exact hcol1b) hcol1b h
      refine ⟨by rw [hl, hl1], ?_, hcol, hsc'⟩
      intro k
      rw [hd k, hd1 k]

theorem vectorDirection_bound (d : Nat) :
    (vectorDirection d).x.natAbs ≤ 1 ∧ (vectorDirection d).y.natAbs ≤ 1 := by
  unfold vectorDirection
  by_cases h0 : d = 0
  · simp [h0]
  by_cases h1 : d = 1
  · simp [h0, h1]
  by_cases h2 : d = 2
  · simp [h0, h1, h2]
  simp [h0, h1, h2]

theorem segStart_bound (lines : List Line) (k : Nat) :
    (segStart lines k).x.natAbs ≤ lineStartIdx lines k ∧
    (segStart lines k).y.natAbs ≤ lineStartIdx lines k := by
  induction k with
  | zero =>
    rw [lineStartIdx_zero]
    constructor <;> simp [segStart, origin]
  | succ n ih =>
    by_cases hn : n < lines.length
    · have hstep := segStart_succ lines n hn
      have hsum := lineStartIdx_succ lines n
      obtain ⟨hx, hy⟩ := ih
      obtain ⟨hvx, hvy⟩ := vectorDirection_bound (lineGetD lines n).direction
      rw [hstep]
      unfold lineEnd ptAdd ptScale
      constructor
      · simp only
        calc ((segStart lines n).x + ((lineGetD lines n).length : Int) *
              (vectorDirection (lineGetD lines n).direction).x).natAbs
            ≤ (segStart lines n).x.natAbs + (((lineGetD lines n).length : Int) *
              (vectorDirection (lineGetD lines n).direction).x).natAbs :=
              Int.natAbs_add_le _ _
          _ ≤ lineStartIdx lines n + (lineGetD lines n).length := by
              rw [Int.natAbs_mul]
              have : ((lineGetD lines n).length : Int).natAbs = (lineGetD lines n).length :=
                Int.natAbs_ofNat _
              calc (segStart lines n).x.natAbs + (((lineGetD lines n).length : Int).natAbs *
                    (vectorDirection (lineGetD lines n).direction).x.natAbs)
                  ≤ lineStartIdx lines n + (lineGetD lines n).length * 1 := by
                    rw [this]
                    exact Nat.add_le_add hx (Nat.mul_le_mul_left _ hvx)
                _ = lineStartIdx lines n + (lineGetD lines n).length := by omega
          _ = lineStartIdx lines (n + 1) := by omega
      · simp only
        calc ((segStart lines n).y + ((lineGetD lines n).length : Int) *
              (vectorDirection (lineGetD lines n).direction).y).natAbs
            ≤ (segStart lines n).y.natAbs + (((lineGetD lines n).length : Int) *
              (vectorDirection (lineGetD lines n).direction).y).natAbs :=
              Int.natAbs_add_le _ _
          _ ≤ lineStartIdx lines n + (lineGetD lines n).length := by
              rw [Int.natAbs_mul]
              have : ((lineGetD lines n).length : Int).natAbs = (lineGetD lines n).length :=
                Int.natAbs_ofNat _
              calc (segStart lines n).y.natAbs + (((lineGetD lines n).length : Int).natAbs *
                    (vectorDirection (lineGetD lines n).direction).y.natAbs)
                  ≤ lineStartIdx lines n + (lineGetD lines n).length * 1 := by
                    rw [this]
                    exact Nat.add_le_add hy (Nat.mul_le_mul_left _ hvy)
                _ = lineStartIdx lines n + (lineGetD lines n).length := by omega
          _ = lineStartIdx lines (n + 1) := by omega
    · have hstep : segStart lines (n + 1) = segStart lines n := by
        unfold segStart
        rw [List.take_of_length_le (by omega), List.take_of_length_le (by omega)]
      have hsum : lineStartIdx lines (n + 1) = lineStartIdx lines n := by
        have h1 := lineStartIdx_succ lines n
        have h2 : lineGetD lines n = ⟨0, 0⟩ := by
          unfold lineGetD
          exact List.getD_eq_default _ _ (by omega)
        rw [h2] at h1
        simp only at h1
        omega
      rw [hstep, hsum]
      exact ih

theorem intToLength_gt (v : Int) (L : Nat) (h1 : (L : Int) < v) (h2 : v < 4294967296) :
    L < intToLength v := by
  unfold intToLength
  have h0 : 0 ≤ v := by omega
  rw [Int.emod_eq_of_lt h0 h2]
  omega

/-- C3: for a genuinely colliding figure (the collides flag set and the
collider recorded by spiral_collides), with perpendicular consecutive
directions, positive solved lengths and total length within machine range,
the length suggested by suggest_resize for line index - 1 strictly exceeds
that line's current length, for every perfection threshold. -/
theorem suggest_resize_increases (sp : Spiral) (index thresh : Nat)
    (hcol : sp.collides = true)
    (hcons : spiral_collides sp.lines index = some sp.collider)
    (hi : 1 ≤ index) (hN : index < sp.lines.length)
    (hdirs : ∀ k, k < sp.lines.length → (lineGetD sp.lines k).direction < 4)
    (hperp : (lineGetD sp.lines (index - 1)).direction % 2 ≠
      (lineGetD sp.lines index).direction % 2)
    (hpos : ∀ k, k < index → 1 ≤ (lineGetD sp.lines k).length)
    (hbound : sxbp_sum_lines sp.lines 0 sp.lines.length ≤ 1073741824) :
    (lineGetD sp.lines (index - 1)).length < suggest_resize sp index thresh := by
  have hSidx : sxbp_sum_lines sp.lines 0 index < 4294967296 :=
    lt_of_le_of_lt (le_trans (lineStartIdx_mono sp.lines (le_of_lt hN)) hbound) (by norm_num)
  obtain ⟨hc_lt, ⟨q, hqc, hqi⟩, -⟩ :=
    collides_some_spec sp.lines index sp.collider hN hpos hSidx hcons
  unfold suggest_resize
  rw [if_pos hcol]
  by_cases hthr : thresh > 0 ∧ (lineGetD sp.lines index).length > thresh
  · rw [if_pos hthr]
    omega
  · rw [if_neg hthr]
    by_cases hpar : (lineGetD sp.lines (index - 1)).direction % 2 ≠
        (lineGetD sp.lines sp.collider).direction % 2
    · rw [if_pos hpar]
      omega
    · rw [if_neg hpar]
      push_neg at hpar
      have hpa : (sxbp_cache_spiral_points sp.lines (index + 1)).getD
          (sxbp_sum_lines sp.lines 0 (index - 1)) origin =
          segStart sp.lines (index - 1) := by
        have h := cache_getD sp.lines (index + 1) (index - 1) 0 (by omega) (by omega)
          (by omega)
        rw [Nat.add_zero] at h
        rw [show ptAdd (segStart sp.lines (index - 1)) (ptScale 0
          (vectorDirection (lineGetD sp.lines (index - 1)).direction)) =
          segStart sp.lines (index - 1) from by simp [ptAdd, ptScale]] at h
        exact h
      have hra : (sxbp_cache_spiral_points sp.lines (index + 1)).getD
          (sxbp_sum_lines sp.lines 0 sp.collider) origin =
          segStart sp.lines sp.collider := by
        have h := cache_getD sp.lines (index + 1) sp.collider 0 (by omega) (by omega)
          (by omega)
        rw [Nat.add_zero] at h
        rw [show ptAdd (segStart sp.lines sp.collider) (ptScale 0
          (vectorDirection (lineGetD sp.lines sp.collider).direction)) =
          segStart sp.lines sp.collider from by simp [ptAdd, ptScale]] at h
        exact h
      have hrb : (sxbp_cache_spiral_points sp.lines (index + 1)).getD
          (sxbp_sum_lines sp.lines 0 sp.collider + (lineGetD sp.lines sp.collider).length)
          origin = segStart sp.lines (sp.collider + 1) := by
        have h := cache_getD sp.lines (index + 1) sp.collider
          (lineGetD sp.lines sp.collider).length (by omega) (by omega) (le_refl _)
        have h2 : lineStartIdx sp.lines sp.collider =
            sxbp_sum_lines sp.lines 0 sp.collider := rfl
        rw [h2] at h
        rw [h, segStart_succ sp.lines sp.collider (by omega)]
        rfl
      dsimp only
      rw [hpa, hra, hrb]
      rw [mem_segPoints] at hqc hqi
      obtain ⟨s, hs, hqs⟩ := hqc
      obtain ⟨t, ht2, hqt⟩ := hqi
      have hseg : segStart sp.lines index =
          lineEnd (segStart sp.lines (index - 1)) (lineGetD sp.lines (index - 1)) := by
        have h := segStart_succ sp.lines (index - 1) (by omega)
        rw [show index - 1 + 1 = index from by omega] at h
        exact h
      rw [hseg] at hqt
      have hq : ptAdd (segStart sp.lines sp.collider)
          (ptScale s (vectorDirection (lineGetD sp.lines sp.collider).direction)) =
          ptAdd (lineEnd (segStart sp.lines (index - 1)) (lineGetD sp.lines (index - 1)))
          (ptScale t (vectorDirection (lineGetD sp.lines index).direction)) :=
        hqs.symm.trans hqt
      have hmN : ∀ m, m ≤ sp.lines.length → lineStartIdx sp.lines m ≤ 1073741824 := by
        intro m hm
        have h1 := lineStartIdx_mono sp.lines hm
        have h2 : lineStartIdx sp.lines sp.lines.length =
            sxbp_sum_lines sp.lines 0 sp.lines.length := rfl
        omega
      obtain ⟨hpaX, hpaY⟩ := segStart_bound sp.lines (index - 1)
      obtain ⟨hraX, hraY⟩ := segStart_bound sp.lines sp.collider
      obtain ⟨hrbX, hrbY⟩ := segStart_bound sp.lines (sp.collider + 1)
      have hpaB := hmN (index - 1) (by omega)
      have hraB := hmN sp.collider (by omega)
      have hrbB := hmN (sp.collider + 1) (by omega)
      have hlcB : (lineGetD sp.lines sp.collider).length ≤ 1073741824 := by
        have h1 := lineStartIdx_succ sp.lines sp.collider
        have h2 := hmN (sp.collider + 1) (by omega)
        omega
      have hdp := hdirs (index - 1) (by omega)
      have hdi := hdirs index (by omega)
      have hdc := hdirs sp.collider (by omega)
      have hrbrel : segStart sp.lines (sp.collider + 1) =
          lineEnd (segStart sp.lines sp.collider) (lineGetD sp.lines sp.collider) :=
        segStart_succ sp.lines sp.collider (by omega)
      rcases hPL : lineGetD sp.lines (index - 1) with ⟨dp, lp⟩
      rcases hIL : lineGetD sp.lines index with ⟨di, li⟩
      rcases hCL : lineGetD sp.lines sp.collider with ⟨dc, lc2⟩
      simp only [hPL, hIL, hCL] at hq hperp hpar hdp hdi hdc hs ht2 hlcB hrbrel ⊢
      interval_cases dp <;> interval_cases dc <;> interval_cases di <;>
        first
          | omega
          | (norm_num [UP, RIGHT, DOWN, LEFT]
             simp only [vectorDirection, ptAdd, ptScale, lineEnd, Pt.mk.injEq] at hq
             norm_num at hq
             have hrbX := congrArg Pt.x hrbrel
             have hrbY := congrArg Pt.y hrbrel
             simp only [vectorDirection, ptAdd, ptScale, lineEnd] at hrbX hrbY
             norm_num at hrbX hrbY
             apply intToLength_gt <;> omega)

/-- C2 amended: suggest_resize implements the threshold rule and the
non-parallel guard, and in the parallel case returns delta + r.length + 1
where delta is the signed displacement, measured along the previous line's
direction, from the previous line's start vertex to the rigid line's start
vertex (equal directions) or end vertex (opposite directions); delta is not
always positive. -/
theorem suggest_resize_formula (sp : Spiral) (index thresh : Nat)
    (hcol : sp.collides = true) :
    (0 < thresh → (lineGetD sp.lines index).length > thresh →
      suggest_resize sp index thresh = (lineGetD sp.lines (index - 1)).length + 1) ∧
    (¬(0 < thresh ∧ (lineGetD sp.lines index).length > thresh) →
      (lineGetD sp.lines (index - 1)).direction % 2 ≠
        (lineGetD sp.lines sp.collider).direction % 2 →
      suggest_resize sp index thresh = (lineGetD sp.lines (index - 1)).length + 1) ∧
    (¬(0 < thresh ∧ (lineGetD sp.lines index).length > thresh) →
      (lineGetD sp.lines (index - 1)).direction < 4 →
      (lineGetD sp.lines sp.collider).direction < 4 →
      (lineGetD sp.lines (index - 1)).direction % 2 =
        (lineGetD sp.lines sp.collider).direction % 2 →
      suggest_resize sp index thresh = intToLength
        (dispAlong (lineGetD sp.lines (index - 1)).direction
          ((sxbp_cache_spiral_points sp.lines (index + 1)).getD
            (sxbp_sum_lines sp.lines 0 (index - 1)) origin)
          (if (lineGetD sp.lines sp.collider).direction =
              (lineGetD sp.lines (index - 1)).direction then
            (sxbp_cache_spiral_points sp.lines (index + 1)).getD
              (sxbp_sum_lines sp.lines 0 sp.collider) origin
          else
            (sxbp_cache_spiral_points sp.lines (index + 1)).getD
              (sxbp_sum_lines sp.lines 0 sp.collider +
                (lineGetD sp.lines sp.collider).length) origin) +
        ((lineGetD sp.lines sp.collider).length : Int) + 1)) := by
  refine ⟨?_, ?_, ?_⟩
  · intro h1 h2
    unfold suggest_resize
    rw [if_pos hcol, if_pos ⟨h1, h2⟩]
  · intro h1 h2
    unfold suggest_resize
    rw [if_pos hcol, if_neg h1]
    try dsimp only
    rw [if_pos h2]
  · intro h1 hdp hdc hpar
    unfold suggest_resize
    rw [if_pos hcol, if_neg h1]
    try dsimp only
    rw [if_neg (show ¬((lineGetD sp.lines (index - 1)).direction % 2 ≠
      (lineGetD sp.lines sp.collider).direction % 2) from by omega)]
    try dsimp only
    rcases hPL : lineGetD sp.lines (index - 1) with ⟨dp, lp⟩
    rcases hCL : lineGetD sp.lines sp.collider with ⟨dc, lc2⟩
    simp only [hPL, hCL] at hdp hdc hpar ⊢
    interval_cases dp <;> interval_cases dc <;>
      first
        | omega
        | (norm_num [UP, RIGHT, DOWN, LEFT, dispAlong, alongAxis, vectorDirection]
           try (congr 1; ring))

theorem find?_range'_eq_some (p : Nat → Bool) :
    ∀ n s a, s ≤ a → a < s + n → p a = true → (∀ t, s ≤ t → t < a → ¬ p t = true) →
      (List.range' s n).find? p = some a := by
  intro n
  induction n with
  | zero => intro s a h1 h2 h3 h4; omega
  | succ m ih =>
    intro s a h1 h2 h3 h4
    rw [List.range'_succ]
    by_cases hsa : a = s
    · subst hsa
      exact List.find?_cons_of_pos _ h3
    · rw [List.find?_cons_of_neg _ (h4 s (le_refl s) (by omega))]
      exact ih (s + 1) a (by omega) (by omega) h3 (fun t ht1 ht2 => h4 t (by omega) ht2)

theorem collides_some_strong (lines : List Line) (index c : Nat)
    (hidx : index < lines.length)
    (hpos : ∀ k, k < index → 1 ≤ (lineGetD lines k).length)
    (hS : sxbp_sum_lines lines 0 index < 4294967296)
    (hc : spiral_collides lines index = some c) :
    ∃ istar, istar < lineStartIdx lines index ∧
      (c = 0 ∨ lineStartIdx lines c < istar) ∧
      istar ≤ lineStartIdx lines (c + 1) ∧ c < index ∧
      ((sxbp_cache_spiral_points lines (index + 1)).getD istar origin ∈
        segPoints lines index) ∧
      (∀ t, t < istar → ¬ hitsLast lines index t = true) := by
  rw [spiral_collides_eq_scanSpec lines index hidx hpos hS] at hc
  unfold scanSpec at hc
  by_cases hsz : lines.length < 4
  · rw [if_pos hsz] at hc; simp at hc
  rw [if_neg hsz] at hc
  rcases hmi : matchedIdx lines index with _ | istar
  · rw [hmi] at hc; simp at hc
  rw [hmi] at hc
  have hattr : attribLine lines istar = c := by simpa using hc
  unfold matchedIdx at hmi
  rw [List.range_eq_range'] at hmi
  obtain ⟨-, hlt, hhit, hfirst⟩ := find?_range'_first _ _ _ _ hmi
  have hsb : scanBound lines index =
      min (lineStartIdx lines index) (lineStartIdx lines (lines.length - 3) + 1) := rfl
  have hiS : istar < lineStartIdx lines index := by omega
  obtain ⟨m, hm1, hm2, hm3⟩ := attribution_exists lines index hpos istar hiS
  have hmc : c = m := by
    rw [← hattr]
    exact attribLine_eq lines istar m (by omega) hm3 hm2
  subst hmc
  exact ⟨istar, hiS, hm2, hm3, hm1, (hitsLast_iff lines index istar hidx).mp hhit,
    fun t ht => hfirst t (by omega) (by omega)⟩

/-- C5 amended: when every direction is a valid direction code, consecutive
segments are perpendicular, every segment below the tested index has
positive length and the cumulative length below the tested index stays
under 2^32 (so the source's uint32 scan bound does not truncate), the
optimised collision scan of spiral_collides returns exactly the collides /
collider answer of the unoptimised predicate that tests the last segment
against every earlier non-adjacent segment. -/
theorem collides_eq_naive (lines : List Line) (index : Nat)
    (hidx : index < lines.length)
    (hdirs : ∀ k, k < lines.length → (lineGetD lines k).direction < 4)
    (hperp : ∀ k, k + 1 < lines.length →
      (lineGetD lines k).direction % 2 ≠ (lineGetD lines (k + 1)).direction % 2)
    (hpos : ∀ k, k < index → 1 ≤ (lineGetD lines k).length)
    (hS : sxbp_sum_lines lines 0 index < 4294967296) :
    spiral_collides lines index = naive_collides lines index := by
  have hpred : ∀ j, ((decide (j + 1 ≠ index) && segIntersects lines j index) = true) ↔
      (j + 1 ≠ index ∧ ∃ q, q ∈ segPoints lines j ∧ q ∈ segPoints lines index) := by
    intro j
    simp only [Bool.and_eq_true, decide_eq_true_eq, segIntersects, List.any_eq_true,
      decide_eq_true_eq]
    constructor
    · rintro ⟨h1, q, hq, w, hw, rfl⟩
      exact ⟨h1, w, hq, hw⟩
    · rintro ⟨h1, q, hqj, hqi⟩
      exact ⟨h1, q, hqj, q, hqi, rfl⟩
  rcases hc : spiral_collides lines index with _ | c
  · symm
    unfold naive_collides
    rw [List.find?_eq_none]
    intro j hj
    rw [List.mem_range] at hj
    rw [hpred j]
    rintro ⟨hne, q, hqj, hqi⟩
    by_cases hj2 : j + 2 = index
    · subst hj2
      exact skip_one_disjoint lines j (by omega) (hdirs j (by omega))
        (hdirs (j + 1) (by omega)) (hdirs (j + 2) (by omega))
        (hperp j (by omega)) (hperp (j + 1) (by omega))
        (hpos (j + 1) (by omega)) q hqj hqi
    · exact collides_none_disjoint lines index j hidx hpos hS (by omega) hc q hqj hqi
  · obtain ⟨istar, hiS, hlo, hup, hcidx, hmem, hfirst⟩ :=
      collides_some_strong lines index c hidx hpos hS hc
    obtain ⟨-, -, hmin⟩ := collides_some_spec lines index c hidx hpos hS hc
    have hScle : lineStartIdx lines c ≤ istar := by
      rcases hlo with rfl | h
      · rw [lineStartIdx_zero]; omega
      · omega
    symm
    unfold naive_collides
    rw [List.range_eq_range']
    apply find?_range'_eq_some _ index 0 c (by omega) (by omega)
    · rw [hpred c]
      refine ⟨?_, (sxbp_cache_spiral_points lines (index + 1)).getD istar origin,
        segPoint_cache lines index c istar hcidx hidx hup hlo, hmem⟩
      intro hadj
      have hiSc : istar < lineStartIdx lines (c + 1) := by
        have : lineStartIdx lines (c + 1) = lineStartIdx lines index := by rw [hadj]
        omega
      have hsucc := lineStartIdx_succ lines c
      have hical := cache_getD lines (index + 1) c (istar - lineStartIdx lines c)
        (by omega) (by omega) (by omega)
      rw [show lineStartIdx lines c + (istar - lineStartIdx lines c) = istar from
        by omega] at hical
      have hadjq := (adjacent_inter lines c (by omega) (hdirs c (by omega))
        (hdirs (c + 1) (by omega)) (hperp c (by omega))
        ((sxbp_cache_spiral_points lines (index + 1)).getD istar origin)).mp
        ⟨segPoint_cache lines index c istar hcidx hidx hup hlo, by rw [hadj]; exact hmem⟩
      have hseg : segStart lines (c + 1) =
          ptAdd (segStart lines c)
            (ptScale (lineGetD lines c).length
              (vectorDirection (lineGetD lines c).direction)) := by
        rw [segStart_succ lines c (by omega)]
        rfl
      rw [hical, hseg] at hadjq
      have := ptScale_inj (lineGetD lines c).direction (hdirs c (by omega))
        (segStart lines c) _ _ hadjq
      omega
    · intro t ht0 htc
      rw [hpred t]
      rintro ⟨-, q, hqt, hqi⟩
      exact hmin t htc q hqt hqi

theorem change_direction_cast (d : Nat) (r : Int) :
    ((sxbp_change_direction d r : Nat) : Int) = ((d : Int) + r) % 4 := by
  unfold sxbp_change_direction
  rw [Int.toNat_of_nonneg (Int.emod_nonneg _ (by norm_num))]

theorem lineGetD_mem (l : List Line) (n : Nat) (h : n < l.length) :
    lineGetD l n ∈ l := by
  have heq : lineGetD l n = l[n] := by
    rw [lineGetD, List.getD_eq_getElem?_getD, List.getElem?_eq_getElem h]
    rfl
  rw [heq]
  exact List.getElem_mem h

/-- C6 counterexample: initialising a figure from the byte string A (0x41)
gives segment 0 length 0 (not 3) and segment 1 length 0 (not 1). -/
theorem init_spiral_lengths_counterexample :
    (lineGetD (sxbp_init_spiral [65]) 0).length = 0 ∧
    (lineGetD (sxbp_init_spiral [65]) 1).length = 0 ∧
    ¬((lineGetD (sxbp_init_spiral [65]) 0).length = 3 ∧
      (lineGetD (sxbp_init_spiral [65]) 1).length = 1) := by decide

/-- C6 amended: after sxbp_init_spiral on any input byte string, segment 0
is (UP, 0) and every segment with index in the bit range has length 0 (the
source initialises every length to zero; the solver later assigns real
lengths). -/
theorem init_spiral_first_up_all_zero (buffer : List Nat) :
    lineGetD (sxbp_init_spiral buffer) 0 = ⟨UP, 0⟩ ∧
    (∀ i, 1 ≤ i → i ≤ 8 * buffer.length →
      (lineGetD (sxbp_init_spiral buffer) i).length = 0) := by
  constructor
  · rfl
  · intro i h1 h2
    unfold sxbp_init_spiral lineGetD
    cases i with
    | zero => omega
    | succ n =>
      rw [List.getD_cons_succ]
      have hlen : n < (turnLines UP (bufferBits buffer)).length := by
        rw [turnLines_length, bufferBits_length]
        omega
      exact turnLines_all_zero UP (bufferBits buffer) _ (lineGetD_mem _ n hlen)

/-- C7: sxbp_init_spiral produces exactly 8B + 1 segments from a B-byte
input, and each segment direction is the previous one turned by +1 mod 4
for a 0 bit and -1 mod 4 for a 1 bit, reading the input MSB-first. -/
theorem init_spiral_turn_encoding (buffer : List Nat) :
    (sxbp_init_spiral buffer).length = 8 * buffer.length + 1 ∧
    ∀ i, 1 ≤ i → i < 8 * buffer.length + 1 →
      ((lineGetD (sxbp_init_spiral buffer) i).direction : Int) =
        (((lineGetD (sxbp_init_spiral buffer) (i - 1)).direction : Int) +
          (if msbBit buffer (i - 1) then -1 else 1)) % 4 := by
  refine ⟨sxbp_init_spiral_length buffer, ?_⟩
  intro i hi1 hi2
  have hbits : (bufferBits buffer).length = 8 * buffer.length := bufferBits_length buffer
  unfold sxbp_init_spiral lineGetD
  cases i with
  | zero => omega
  | succ n =>
    rw [List.getD_cons_succ]
    cases n with
    | zero =>
      rw [show (0 + 1 : Nat) - 1 = 0 from rfl, List.getD_cons_zero]
      rcases hbb : bufferBits buffer with _ | ⟨b, rest⟩
      · rw [hbb] at hbits
        simp only [List.length_nil] at hbits
        omega
      · rw [turnLines_getD_zero]
        simp only
        rw [change_direction_cast]
        have hb0 : msbBit buffer 0 = b := by
          have h := bufferBits_getD buffer 0 (by omega)
          rw [hbb] at h
          simpa using h.symm
        rw [hb0]
        cases b <;> rfl
    | succ m =>
      have hmb : m + 1 < (bufferBits buffer).length := by omega
      rw [show m + 1 + 1 - 1 = m + 1 from by omega, List.getD_cons_succ]
      rw [turnLines_getD_succ (bufferBits buffer) UP m hmb]
      simp only
      rw [change_direction_cast]
      rw [bufferBits_getD buffer (m + 1) (by omega)]
      cases hmbit : msbBit buffer (m + 1) <;> rfl

/-- C1: after a successful sxbp_plot_spiral run from a fresh state (no
lines solved yet) on a figure with valid, consecutively perpendicular
directions, provided the refined figure's solved lengths are positive and
their cumulative sum stays under 2^32 (so the source's uint32 scan bound
never truncates on any solved index), every pair of distinct solved
segments is disjoint except that adjacent segments share exactly the turn
vertex. -/
theorem plot_spiral_self_avoiding (sp sp' : Spiral) (thresh maxLine fuel : Nat)
    (hsc0 : sp.solvedCount = 0)
    (hdirs : ∀ k, k < sp.lines.length → (lineGetD sp.lines k).direction < 4)
    (hperp : ∀ k, k + 1 < sp.lines.length →
      (lineGetD sp.lines k).direction % 2 ≠ (lineGetD sp.lines (k + 1)).direction % 2)
    (hrun : sxbp_plot_spiral sp thresh maxLine fuel = some sp')
    (hpos : ∀ k, k < sp'.solvedCount → 1 ≤ (lineGetD sp'.lines k).length)
    (hb : sxbp_sum_lines sp'.lines 0 sp'.solvedCount < 4294967296) :
    ∀ i j, i < j → j < sp'.solvedCount →
      ((j = i + 1 → ∀ q, (q ∈ segPoints sp'.lines i ∧ q ∈ segPoints sp'.lines j) ↔
          q = segStart sp'.lines j) ∧
       (i + 1 < j → ∀ q, q ∈ segPoints sp'.lines i → q ∉ segPoints sp'.lines j)) := by
  have hrun2 : plotLoop thresh fuel (min maxLine sp.lines.length)
      (min maxLine sp.lines.length - sp.solvedCount) sp.solvedCount sp = some sp' := hrun
  obtain ⟨hl, hd, hcol, hsc2⟩ := plotLoop_post thresh fuel (min maxLine sp.lines.length)
    (min maxLine sp.lines.length - sp.solvedCount) sp.solvedCount sp sp'
    (Nat.min_le_right _ _) (Or.inr (by omega)) (by omega)
    (fun j hj => absurd hj (by omega))
    (fun j hj => absurd hj (by omega)) hrun2
  have hlen2 : sp'.lines.length = sp.lines.length := hl
  have hdirs2 : ∀ k, k < sp'.solvedCount → (lineGetD sp'.lines k).direction < 4 := by
    intro k hk
    rw [hd k]
    exact hdirs k (by omega)
  have hperp2 : ∀ k, k + 1 < sp'.solvedCount →
      (lineGetD sp'.lines k).direction % 2 ≠ (lineGetD sp'.lines (k + 1)).direction % 2 := by
    intro k hk
    rw [hd k, hd (k + 1)]
    exact hperp k (by omega)
  exact pairwise_of_collides_none sp'.lines sp'.solvedCount hsc2 hb hdirs2 hperp2 hpos hcol

theorem plot_spiral_self_avoiding_witness :
    sxbp_plot_spiral spBlank4 1 4 50 =
      some ⟨[⟨0, 1⟩, ⟨1, 1⟩, ⟨0, 1⟩, ⟨3, 1⟩], false, 0, 4⟩ ∧
    ∀ q, q ∈ segPoints [⟨0, 1⟩, ⟨1, 1⟩, ⟨0, 1⟩, ⟨3, 1⟩] 0 →
      q ∉ segPoints [⟨0, 1⟩, ⟨1, 1⟩, ⟨0, 1⟩, ⟨3, 1⟩] 2 := by
  have hrun : sxbp_plot_spiral spBlank4 1 4 50 =
      some (⟨[⟨0, 1⟩, ⟨1, 1⟩, ⟨0, 1⟩, ⟨3, 1⟩], false, 0, 4⟩ : Spiral) := by rfl
  refine ⟨hrun, ?_⟩
  have h := plot_spiral_self_avoiding spBlank4
    ⟨[⟨0, 1⟩, ⟨1, 1⟩, ⟨0, 1⟩, ⟨3, 1⟩], false, 0, 4⟩ 1 4 50 rfl
    (by intro k hk; have hk4 : k < 4 := hk; interval_cases k <;> decide)
    (by
      intro k hk
      have hk4 : k + 1 < 4 := hk
      have hk3 : k < 3 := by omega
      interval_cases k <;> decide)
    hrun
    (by intro k hk; have hk4 : k < 4 := hk; interval_cases k <;> decide)
    (by decide)
  intro q hq
  exact (h 0 2 (by omega) (by decide)).2 (by omega) q hq

/-- C4: with the coordinate cache materialised through the tested line and
the cumulative length below the tested line under 2^32 (so the source's
uint32 scan bound does not truncate), spiral_collides reports no collision
whenever fewer than 4 segments exist, and whenever it reports a collider c
(the solved lengths being positive), segment c intersects the tested
segment while every segment of lower index is disjoint from it: c is the
lowest-indexed intersecting segment. -/
theorem collides_small_none_and_lowest (lines : List Line) (index c : Nat)
    (hidx : index < lines.length)
    (hpos : ∀ k, k < index → 1 ≤ (lineGetD lines k).length)
    (hS : sxbp_sum_lines lines 0 index < 4294967296) :
    (lines.length < 4 → spiral_collides lines index = none) ∧
    (spiral_collides lines index = some c →
      c < index ∧
      (∃ q, q ∈ segPoints lines c ∧ q ∈ segPoints lines index) ∧
      (∀ j, j < c → ∀ q, q ∈ segPoints lines j → q ∉ segPoints lines index)) := by
  constructor
  · intro h4
    unfold spiral_collides
    rw [if_pos h4]
  · intro hc
    exact collides_some_spec lines index c hidx hpos hS hc

theorem collides_small_none_and_lowest_witness :
    spiral_collides linesColl 5 = some 0 ∧
    ∃ q, q ∈ segPoints linesColl 0 ∧ q ∈ segPoints linesColl 5 := by
  have hc : spiral_collides linesColl 5 = some 0 := by rfl
  refine ⟨hc, ?_⟩
  exact ((collides_small_none_and_lowest linesColl 5 0 (by decide)
    (by intro k hk; have hk5 : k < 5 := hk; interval_cases k <;> decide)
    (by decide)).2 hc).2.1

/-- C10: a successful sxbp_resize_spiral call keeps its backtracking index
at most the target index, so every segment above the target index is left
unchanged. -/
theorem resize_spiral_writes_below_target (sp : Spiral) (index len thresh fuel : Nat)
    (sp' : Spiral) (h : sxbp_resize_spiral sp index len thresh fuel = some sp') :
    ∀ k, index < k → lineGetD sp'.lines k = lineGetD sp.lines k :=
  resizeLoop_above thresh index fuel sp index len sp' (le_refl index) h

theorem resize_spiral_writes_below_target_witness :
    sxbp_resize_spiral spBlank4 0 1 1 50 =
      some ⟨[⟨0, 1⟩, ⟨1, 0⟩, ⟨0, 0⟩, ⟨3, 0⟩], false, 0, 1⟩ ∧
    lineGetD (⟨[⟨0, 1⟩, ⟨1, 0⟩, ⟨0, 0⟩, ⟨3, 0⟩], false, 0, 1⟩ : Spiral).lines 2 =
      lineGetD spBlank4.lines 2 := by
  have h : sxbp_resize_spiral spBlank4 0 1 1 50 =
      some (⟨[⟨0, 1⟩, ⟨1, 0⟩, ⟨0, 0⟩, ⟨3, 0⟩], false, 0, 1⟩ : Spiral) := by rfl
  exact ⟨h, resize_spiral_writes_below_target spBlank4 0 1 1 50 _ h 2 (by omega)⟩

theorem load_dump_roundtrip_witness :
    load_spiral (dump_spiral linesColl) = .ok linesColl :=
  load_dump_roundtrip linesColl (by decide) (by decide)

/-- C2 counterexample: spColl is a colliding figure whose previous line
(index 4) is parallel to the rigid line (the collider, index 0); with the
threshold disabled suggest_resize returns 4, which is strictly below
r.length + 2, the least value the claimed positive-displacement formula
delta + r.length + 1 (delta at least 1) can take. -/
theorem suggest_resize_delta_counterexample :
    spColl.collides = true ∧
    spiral_collides spColl.lines 5 = some spColl.collider ∧
    (lineGetD spColl.lines 4).direction % 2 =
      (lineGetD spColl.lines spColl.collider).direction % 2 ∧
    (lineGetD spColl.lines spColl.collider).length = 5 ∧
    suggest_resize spColl 5 0 = 4 ∧
    suggest_resize spColl 5 0 <
      1 + (lineGetD spColl.lines spColl.collider).length + 1 := by decide

theorem suggest_resize_formula_witness :
    spColl.collides = true ∧
    suggest_resize spColl 5 1 = (lineGetD spColl.lines 4).length + 1 :=
  ⟨rfl, (suggest_resize_formula spColl 5 1 rfl).1 (by decide) (by decide)⟩

theorem suggest_resize_increases_witness :
    (lineGetD spColl.lines 4).length < suggest_resize spColl 5 0 :=
  suggest_resize_increases spColl 5 0 rfl (by rfl) (by decide) (by decide)
    (by intro k hk; have hk6 : k < 6 := hk; interval_cases k <;> decide)
    (by decide)
    (by intro k hk; interval_cases k <;> decide)
    (by decide)

/-- C5 counterexample: linesZero starts with the fixed (UP, 3) segment and
has perpendicular consecutive segments, yet its fourth segment has length
zero; at index 4 the optimised scan of spiral_collides reports no
collision while the unoptimised predicate finds the intersection with
segment 2, so the claimed equivalence fails as stated. -/
theorem collides_skip_counterexample :
    (lineGetD linesZero 0).direction = 0 ∧
    (lineGetD linesZero 0).length = 3 ∧
    ((lineGetD linesZero 0).direction % 2 ≠ (lineGetD linesZero 1).direction % 2 ∧
     (lineGetD linesZero 1).direction % 2 ≠ (lineGetD linesZero 2).direction % 2 ∧
     (lineGetD linesZero 2).direction % 2 ≠ (lineGetD linesZero 3).direction % 2 ∧
     (lineGetD linesZero 3).direction % 2 ≠ (lineGetD linesZero 4).direction % 2) ∧
    spiral_collides linesZero 4 = none ∧
    naive_collides linesZero 4 = some 2 := by decide

theorem collides_eq_naive_witness :
    spiral_collides linesColl 5 = naive_collides linesColl 5 :=
  collides_eq_naive linesColl 5 (by decide)
    (by intro k hk; have hk6 : k < 6 := hk; interval_cases k <;> decide)
    (by
      intro k hk
      have hk6 : k + 1 < 6 := hk
      have hk5 : k < 5 := by omega
      interval_cases k <;> decide)
    (by intro k hk; interval_cases k <;> decide)
    (by decide)

theorem init_spiral_first_up_all_zero_witness :
    lineGetD (sxbp_init_spiral [65]) 0 = ⟨UP, 0⟩ ∧
    (lineGetD (sxbp_init_spiral [65]) 8).length = 0 := by
  have h := init_spiral_first_up_all_zero [65]
  exact ⟨h.1, h.2 8 (by omega) (by decide)⟩

theorem init_spiral_turn_encoding_witness :
    (sxbp_init_spiral [65]).length = 9 ∧
    ((lineGetD (sxbp_init_spiral [65]) 1).direction : Int) =
      (((lineGetD (sxbp_init_spiral [65]) 0).direction : Int) +
        (if msbBit [65] 0 then -1 else 1)) % 4 := by
  have h := init_spiral_turn_encoding [65]
  exact ⟨h.1, h.2 1 (by omega) (by decide)⟩
